import Mathlib

/-!
# Verification development for `example/gym_client.cpp`

Shallow embedding of the training client: the helper `flatten_2d_vector`, the episode tracker
updated inside the step loop, the mask construction, the periodic logging arithmetic and the
sequence of calls `main` performs on the communicator and on the rollout storage.

Conventions of the embedding:
* `std::vector` is a `List`; an out-of-range subscript, a remainder by zero and every other
  undefined behaviour makes the embedded function return `none`;
* `int` is a 32-bit twos-complement integer held in an `Int`; an operation that leaves the
  range wraps (`wrap_int32`), and the theorems show where none does;
* `float` values of the tracker are an arbitrary type with an addition and a zero, so the
  tracker theorems do not depend on any law of floating point addition; the logging arithmetic
  is evaluated over `ℚ`.
-/

namespace GymClient

/-! ## Hyperparameters (lines 20-37) -/

/-- Line 21: `const int batch_size = 5`. -/
def batch_size : Nat := 5

/-- Line 25: `const int reward_average_window_size = 10`. -/
def reward_average_window_size : Nat := 10

/-- Line 31: `const int num_envs = 8`. -/
def num_envs : Nat := 8

/-- Line 155: the bound of the update loop, `update < 100000`. -/
def num_updates : Nat := 100000

/-- The integer hyperparameters the embedded code reads. The functions below take them as
arguments so that they can also be evaluated on small configurations. -/
structure Config where
  batch_size : Nat
  reward_average_window_size : Nat
  num_envs : Nat
  num_updates : Nat
  deriving DecidableEq, Repr

/-- The configuration compiled into the program. -/
def source_config : Config :=
  { batch_size := batch_size
    reward_average_window_size := reward_average_window_size
    num_envs := num_envs
    num_updates := num_updates }

/-- Value of a 32-bit twos-complement `int` holding the mathematical integer `x`. -/
def wrap_int32 (x : Int) : Int := (x + 2 ^ 31) % 2 ^ 32 - 2 ^ 31

/-! ## `flatten_2d_vector` (lines 39-51) -/

/-- Lines 39-51: start from an empty `output` and append every `sub_vector` of `input`
at its end, in iteration order. -/
def flatten_2d_vector {T : Type} (input : List (List T)) : List T :=
  input.foldl (fun output sub_vector => output ++ sub_vector) []

/-! ## Step response -/

/-- Modelled from the spec: the `StepResponse` payload (`requests.h` is not part of the source
tree). Section 6 gives its four fields, each an array indexed `[env][*]`. -/
structure StepResponse (α : Type) where
  observation : List (List α)
  reward : List (List α)
  real_reward : List (List α)
  done : List (List Bool)

/-- A response has the shape of section 6 for `n` environments: `real_reward` is `[n][1]`
and `done` has `n` non-empty rows. -/
def StepResponse.shaped {α : Type} (n : Nat) (resp : StepResponse α) : Prop :=
  resp.real_reward.length = n ∧ (∀ row ∈ resp.real_reward, row.length = 1) ∧
  resp.done.length = n ∧ (∀ row ∈ resp.done, 0 < row.length)

instance {α : Type} (n : Nat) (resp : StepResponse α) : Decidable (resp.shaped n) := by
  unfold StepResponse.shaped; infer_instance

/-- The unshaped reward of environment `i`, `real_reward[i][0]` (zero when absent). -/
def real_reward_of {α : Type} [Zero α] (resp : StepResponse α) (i : Nat) : α :=
  ((resp.real_reward[i]?).bind (fun row => row[0]?)).getD 0

/-- The done flag of environment `i`, `done[i][0]` (false when absent). -/
def done_of {α : Type} (resp : StepResponse α) (i : Nat) : Bool :=
  ((resp.done[i]?).bind (fun row => row[0]?)).getD false

/-! ## Episode tracker (lines 148-150 and 183-192) -/

/-- The three variables of the episode tracker. -/
structure Tracker (α : Type) where
  running_rewards : List α
  episode_count : Int
  reward_history : List α

/-- Lines 148-150: both vectors are value-initialised (all zero), the counter is zero. -/
def tracker_start {α : Type} [Zero α] (W N : Nat) : Tracker α :=
  { running_rewards := List.replicate N 0
    episode_count := 0
    reward_history := List.replicate W 0 }

/-- Lines 185-191, the body of the loop over `i`:
`running_rewards[i] += real_rewards[i]`, and when `done[i][0]` holds
`reward_history[episode_count % reward_average_window_size] = running_rewards[i]`,
`running_rewards[i] = 0`, `episode_count++`. -/
def tracker_body {α : Type} [Add α] [Zero α] (W : Nat) (real_rewards : List α)
    (done : List (List Bool)) (i : Nat) (t : Tracker α) : Option (Tracker α) :=
  match real_rewards[i]?, t.running_rewards[i]?, (done[i]?).bind (fun row => row[0]?) with
  | some r, some acc, some d =>
    let running := t.running_rewards.set i (acc + r)
    if d then
      if W = 0 then none
      else
        let idx := Int.tmod t.episode_count (W : Int)
        if 0 ≤ idx ∧ idx.toNat < t.reward_history.length then
          some { running_rewards := running.set i 0
                 episode_count := wrap_int32 (t.episode_count + 1)
                 reward_history := t.reward_history.set idx.toNat (acc + r) }
        else none
    else some { t with running_rewards := running }
  | _, _, _ => none

/-- Lines 182-192: `real_rewards` is the flattened `real_reward` field and the loop runs
`i = 0, ..., n - 1` (in `main`, `n` is `num_envs`). -/
def tracker_update {α : Type} [Add α] [Zero α] (W n : Nat) (resp : StepResponse α)
    (t : Tracker α) : Option (Tracker α) :=
  (List.range n).foldlM
    (fun t i => tracker_body W (flatten_2d_vector resp.real_reward) resp.done i t) t

/-- The tracker updates of a sequence of step results, in order. -/
def tracker_run {α : Type} [Add α] [Zero α] (W N : Nat) (steps : List (StepResponse α))
    (t : Tracker α) : Option (Tracker α) :=
  steps.foldlM (fun t resp => tracker_update W N resp t) t

/-! ## Mask construction (lines 193-205) -/

/-- Lines 194-197, the body of the loop over `i`: `dones[i][0]` receives the done flag
`done[i][0]` cast to `int`. -/
def dones_body (done : List (List Bool)) (dones : List (List Int)) (i : Nat) :
    Option (List (List Int)) :=
  match (done[i]?).bind (fun row => row[0]?) with
  | some true => some (dones.set i [1])
  | some false => some (dones.set i [0])
  | none => none

/-- Lines 193-197 and 205: `dones` is a zero tensor of shape `[n, 1]` filled by the loop, and
the mask handed to `storage.insert` is `1 - dones`. The tensor entries are the floats `0.0`
and `1.0`, on which the subtraction is exact. -/
def insert_mask (n : Nat) (done : List (List Bool)) : Option (List (List Int)) :=
  ((List.range n).foldlM (dones_body done) (List.replicate n [0])).map
    (fun dones => dones.map (fun row => row.map (fun x => 1 - x)))

/-! ## Periodic logging (lines 222-238) -/

/-- Line 224: `(update + 1) * batch_size * num_envs` in 32-bit `int` arithmetic. -/
def total_steps (cfg : Config) (update : Nat) : Int :=
  wrap_int32 (wrap_int32 (wrap_int32 ((update : Int) + 1) * cfg.batch_size) * cfg.num_envs)

/-- Line 227: the divisor `run_time_secs.count() + 1e-9`. The count is converted to `double`
and the sum is rounded to `double`; `rnd` is that rounding and `eps` the constant `1e-9`. -/
def fps_divisor (rnd : ℚ → ℚ) (eps : ℚ) (secs : Int) : ℚ :=
  rnd (rnd (secs : ℚ) + eps)

/-- Conversion of a float to `int`: the fractional part is discarded (rounding toward zero). -/
def float_to_int (q : ℚ) : Int := if 0 ≤ q then Int.floor q else Int.ceil q

/-- Line 235: `std::accumulate(reward_history.begin(), reward_history.end(), 0)`. The initial
value `0` is an `int`, hence the accumulator is an `int` and every intermediate sum is
converted back to `int`. -/
def accumulate_reward_history (reward_history : List ℚ) : Int :=
  reward_history.foldl (fun acc x => float_to_int ((acc : ℚ) + x)) 0

/-- Line 236: the divisor
`episode_count < reward_average_window_size ? episode_count : reward_average_window_size`. -/
def average_reward_divisor (W : Nat) (episode_count : Int) : Int :=
  if episode_count < (W : Int) then episode_count else (W : Int)

/-- Lines 235-237: the value logged as "Reward". -/
def average_reward (W : Nat) (reward_history : List ℚ) (episode_count : Int) : ℚ :=
  (accumulate_reward_history reward_history : ℚ) / (average_reward_divisor W episode_count : ℚ)

/-! ## Calls performed by `main` -/

/-- The response types `get_response` is instantiated with. -/
inductive ResponseType where
  | MakeResponse
  | InfoResponse
  | ResetResponse
  | StepResponse
  deriving DecidableEq, Repr

/-- The calls of `main` on its collaborators (communicator, policy, rollout storage, learner)
and the logging block. -/
inductive Call where
  | send_request (command : String)
  | get_response (kind : ResponseType)
  | set_first_observation
  | act
  | insert
  | get_values
  | compute_returns
  | update
  | after_update
  | log_info (update : Nat)
  deriving DecidableEq, Repr

/-- What `main` has done so far: the calls it made, oldest first, and the tracker variables. -/
structure MainState (α : Type) where
  calls : List Call
  tracker : Tracker α

/-- Lines 64-94: the make, info and reset exchanges, then `set_first_observation`. -/
def startup_calls : List Call :=
  [Call.send_request "make", Call.get_response ResponseType.MakeResponse,
   Call.send_request "info", Call.get_response ResponseType.InfoResponse,
   Call.send_request "reset", Call.get_response ResponseType.ResetResponse,
   Call.set_first_observation]

/-- Lines 64-94 and 148-150: the state of `main` on entry to the update loop. -/
def main_startup {α : Type} [Zero α] (cfg : Config) : MainState α :=
  { calls := startup_calls
    tracker := tracker_start cfg.reward_average_window_size cfg.num_envs }

/-- Lines 159-205, one iteration of the inner loop: `policy->act`, the step exchange whose
response is `resp`, the tracker update, the mask and `storage.insert`. The observation and
shaped-reward tensors handed to the policy and to the storage are not part of the state. -/
def main_step {α : Type} [Add α] [Zero α] (cfg : Config) (resp : StepResponse α)
    (s : MainState α) : Option (MainState α) :=
  let calls := s.calls ++ [Call.act, Call.send_request "step",
    Call.get_response ResponseType.StepResponse]
  match tracker_update cfg.reward_average_window_size cfg.num_envs resp s.tracker,
      insert_mask cfg.num_envs resp.done with
  | some tracker, some _ => some { calls := calls ++ [Call.insert], tracker := tracker }
  | _, _ => none

/-- Lines 157-220, an iteration of the update loop up to the test `update % 10 == 0`:
`batch_size` inner iterations, then `get_values`, `compute_returns`, `a2c.update` and
`after_update`. `env k` is the response to the `k`-th step request. -/
def main_update_core {α : Type} [Add α] [Zero α] (cfg : Config) (env : Nat → StepResponse α)
    (update : Nat) (s : MainState α) : Option (MainState α) :=
  ((List.range cfg.batch_size).foldlM
    (fun s step => main_step cfg (env (update * cfg.batch_size + step)) s) s).map
    (fun s => { s with calls := s.calls ++
      [Call.get_values, Call.compute_returns, Call.update, Call.after_update] })

/-- Lines 157-238, a whole iteration of the update loop: the logging block runs when
`update % 10 == 0`. -/
def main_update {α : Type} [Add α] [Zero α] (cfg : Config) (env : Nat → StepResponse α)
    (update : Nat) (s : MainState α) : Option (MainState α) :=
  (main_update_core cfg env update s).map
    (fun s => if update % 10 = 0 then { s with calls := s.calls ++ [Call.log_info update] }
      else s)

/-- The first `n` iterations of the update loop (line 155). -/
def main_loop {α : Type} [Add α] [Zero α] (cfg : Config) (env : Nat → StepResponse α)
    (n : Nat) (s : MainState α) : Option (MainState α) :=
  (List.range n).foldlM (fun s update => main_update cfg env update s) s

/-- The whole of `main`. -/
def main {α : Type} [Add α] [Zero α] (cfg : Config) (env : Nat → StepResponse α) :
    Option (MainState α) :=
  main_loop cfg env cfg.num_updates (main_startup cfg)

/-- State of `main` when iteration `update` reaches the test of line 222. -/
def main_at_logging {α : Type} [Add α] [Zero α] (cfg : Config) (env : Nat → StepResponse α)
    (update : Nat) : Option (MainState α) :=
  (main_loop cfg env update (main_startup cfg)).bind (main_update_core cfg env update)

/-- Tracker variables when, in iteration `update` of the update loop and iteration `step` of
the inner loop, the tracker loop is about to test `i < num_envs` for the given `i`. -/
def tracker_at {α : Type} [Add α] [Zero α] (cfg : Config) (env : Nat → StepResponse α)
    (update step i : Nat) : Option (Tracker α) :=
  ((main_loop cfg env update (main_startup cfg)).bind
    (fun s => (List.range step).foldlM
      (fun s step => main_step cfg (env (update * cfg.batch_size + step)) s) s)).bind
    (fun s => tracker_update cfg.reward_average_window_size i
      (env (update * cfg.batch_size + step)) s.tracker)

/-! ## Reference accumulation for the episode tracker -/

/-- What the tracker observes of environment `env` in one step: its unshaped reward and its
done flag. -/
structure Event (α : Type) where
  env : Nat
  reward : α
  done : Bool

/-- The observation of environment `i` in a step result. -/
def event_of {α : Type} [Zero α] (resp : StepResponse α) (i : Nat) : Event α :=
  { env := i, reward := real_reward_of resp i, done := done_of resp i }

/-- The observations of one step result, in environment-index order. -/
def step_events {α : Type} [Zero α] (N : Nat) (resp : StepResponse α) : List (Event α) :=
  (List.range N).map (event_of resp)

/-- The observations of a sequence of step results: step order, and environment-index order
within a step. -/
def run_events {α : Type} [Zero α] (N : Nat) (steps : List (StepResponse α)) : List (Event α) :=
  steps.flatMap (step_events N)

/-- Reference tracker of section 3, on an unbounded counter: the reward is added to the
accumulator of the environment; on a done flag the accumulated value is stored in the
history slot `episode_count mod W`, the accumulator is cleared and the counter advances. -/
def apply_event {α : Type} [Add α] [Zero α] (W : Nat) (t : Tracker α) (ev : Event α) :
    Tracker α :=
  let acc := (t.running_rewards[ev.env]?).getD 0 + ev.reward
  if ev.done then
    { running_rewards := t.running_rewards.set ev.env 0
      episode_count := t.episode_count + 1
      reward_history := t.reward_history.set (t.episode_count % (W : Int)).toNat acc }
  else { t with running_rewards := t.running_rewards.set ev.env acc }

/-- Sum of a list of rewards, accumulated from zero in list order. -/
def reward_total {α : Type} [Add α] [Zero α] (l : List α) : α :=
  l.foldl (fun acc r => acc + r) 0

/-- The rewards environment `e` received after its last done flag, oldest first. -/
def open_segment {α : Type} (evs : List (Event α)) (e : Nat) : List α :=
  ((((evs.filter (fun ev => ev.env = e)).reverse.takeWhile (fun ev => !ev.done)).reverse).map
    (fun ev => ev.reward))

/-- The totals of the episodes completed by the observations `evs`, which follow the
observations `before`: one total per done flag, in order; the total of an episode is the sum
of the rewards its environment received since its previous done flag, the reward of the
final step included. -/
def completed_after {α : Type} [Add α] [Zero α] (before : List (Event α)) :
    List (Event α) → List α
  | [] => []
  | ev :: rest =>
    (if ev.done then [reward_total (open_segment before ev.env ++ [ev.reward])] else []) ++
      completed_after (before ++ [ev]) rest

/-- The totals of all completed episodes, indexed by completion ordinal. -/
def completed_totals {α : Type} [Add α] [Zero α] (evs : List (Event α)) : List α :=
  completed_after [] evs

/-- Content of history slot `j` given the completed totals, most recent first: the most
recent total whose ordinal is `j` modulo `W`, zero when there is none. -/
def slot_value {α : Type} [Zero α] (W j : Nat) : List α → α
  | [] => 0
  | x :: older => if older.length % W = j then x else slot_value W j older

/-- A tracker state of the program: vectors of the declared sizes, a non-negative counter. -/
def Tracker.wf {α : Type} (W N : Nat) (t : Tracker α) : Prop :=
  t.running_rewards.length = N ∧ t.reward_history.length = W ∧ 0 ≤ t.episode_count

instance {α : Type} (W N : Nat) (t : Tracker α) : Decidable (t.wf W N) := by
  unfold Tracker.wf; infer_instance

/-- Number of done flags in a list of observations. -/
def done_count {α : Type} (evs : List (Event α)) : Nat :=
  evs.countP (fun ev => ev.done)

/-! ## Expected call sequences and protocol monitors -/

/-- The calls of one iteration of the inner loop. -/
def step_calls : List Call :=
  [Call.act, Call.send_request "step", Call.get_response ResponseType.StepResponse, Call.insert]

/-- The calls that close an update. -/
def closing_calls : List Call :=
  [Call.get_values, Call.compute_returns, Call.update, Call.after_update]

/-- The calls of iteration `update` of the update loop. -/
def update_calls (cfg : Config) (update : Nat) : List Call :=
  (List.replicate cfg.batch_size step_calls).flatten ++ closing_calls ++
    (if update % 10 = 0 then [Call.log_info update] else [])

/-- The calls of the first `n` iterations of the update loop. -/
def loop_calls (cfg : Config) (n : Nat) : List Call :=
  (List.range n).flatMap (update_calls cfg)

/-- The calls on the communicator among `calls`, in order. -/
def communicator_calls (calls : List Call) : List Call :=
  calls.filter (fun c => match c with
    | Call.send_request _ => true
    | Call.get_response _ => true
    | _ => false)

/-- The calls that write the rollout storage or hand it to the learner, in order. -/
def storage_calls (calls : List Call) : List Call :=
  calls.filter (fun c => match c with
    | Call.set_first_observation => true
    | Call.insert => true
    | Call.compute_returns => true
    | Call.update => true
    | Call.after_update => true
    | _ => false)

/-- The response type that answers a command (lines 69-71, 73-75, 83-85, 176-178). -/
def response_type_of (command : String) : Option ResponseType :=
  if command = "make" then some ResponseType.MakeResponse
  else if command = "info" then some ResponseType.InfoResponse
  else if command = "reset" then some ResponseType.ResetResponse
  else if command = "step" then some ResponseType.StepResponse
  else none

/-- Modelled from the spec: the two states of the communicator of section 4.2
(`communicator.h` is not part of the source tree). -/
inductive CommState where
  | awaiting_request
  | awaiting_response (command : String)
  deriving DecidableEq, Repr

/-- Modelled from the spec: the communicator of section 4.2. A request is accepted only when
no response is pending, a response is read only when one is pending and its type answers the
pending command; every other use is an error (`none`). Calls on other collaborators leave the
connection as it is. -/
def comm_step (st : CommState) (c : Call) : Option CommState :=
  match st, c with
  | CommState.awaiting_request, Call.send_request command =>
    some (CommState.awaiting_response command)
  | CommState.awaiting_response _, Call.send_request _ => none
  | CommState.awaiting_response command, Call.get_response kind =>
    if response_type_of command = some kind then some CommState.awaiting_request else none
  | CommState.awaiting_request, Call.get_response _ => none
  | st, _ => some st

/-- The communicator driven by a sequence of calls, from a fresh connection. -/
def comm_run (calls : List Call) : Option CommState :=
  calls.foldlM comm_step CommState.awaiting_request

/-- Modelled from the spec: the write cursor of the rollout storage of section 4.4
(`cpprl/storage.h` is not part of the source tree). The cursor is `1` after
`set_first_observation` and after `after_update`; `insert` requires `cursor <= batch_size` and
advances the cursor; `compute_returns` requires a full buffer, that is `batch_size` inserts
since the cursor was last `1`. A violated requirement is an error (`none`). -/
def storage_step (batch : Nat) (cursor : Nat) (c : Call) : Option Nat :=
  match c with
  | Call.set_first_observation => some 1
  | Call.insert => if cursor ≤ batch then some (cursor + 1) else none
  | Call.compute_returns => if cursor = batch + 1 then some cursor else none
  | Call.after_update => some 1
  | _ => some cursor

/-- The storage cursor driven by a sequence of calls, from the cursor `c0`. -/
def storage_run (batch : Nat) (c0 : Nat) (calls : List Call) : Option Nat :=
  calls.foldlM (storage_step batch) c0

/-! ## Sample inputs -/

/-- A step result for eight environments: rewards `1, ..., 8`, environments 1 and 4 done. -/
def sample_response : StepResponse Int :=
  { observation := []
    reward := []
    real_reward := [[1], [2], [3], [4], [5], [6], [7], [8]]
    done := [[false], [true], [false], [false], [true], [false], [false], [false]] }

/-- A tracker state of the compiled configuration, three episodes completed. -/
def sample_tracker : Tracker Int :=
  { running_rewards := [5, 5, 5, 5, 5, 5, 5, 5]
    episode_count := 3
    reward_history := [9, 9, 9, 0, 0, 0, 0, 0, 0, 0] }

/-- An environment that answers every step request with `sample_response`. -/
def sample_env : Nat → StepResponse Int := fun _ => sample_response

/-- A step result for eight environments in which no episode ends. -/
def quiet_response : StepResponse Int :=
  { observation := []
    reward := []
    real_reward := [[1], [1], [1], [1], [1], [1], [1], [1]]
    done := [[false], [false], [false], [false], [false], [false], [false], [false]] }

/-- An environment in which no episode ever ends. -/
def quiet_env : Nat → StepResponse Int := fun _ => quiet_response

/-- A step result in which environments 0 and 1 end an episode of total reward one half. -/
def half_response : StepResponse ℚ :=
  { observation := []
    reward := []
    real_reward := [[1 / 2], [1 / 2], [0], [0], [0], [0], [0], [0]]
    done := [[true], [true], [false], [false], [false], [false], [false], [false]] }

/-- A step result with zero rewards in which no episode ends. -/
def still_response : StepResponse ℚ :=
  { observation := []
    reward := []
    real_reward := [[0], [0], [0], [0], [0], [0], [0], [0]]
    done := [[false], [false], [false], [false], [false], [false], [false], [false]] }

/-- An environment that answers the first step request with `half_response` and every later
one with `still_response`. -/
def half_env : Nat → StepResponse ℚ := fun k => if k = 0 then half_response else still_response

/-- The three scripted step results of the end-to-end scenario of section 8 (two
environments), the unshaped rewards being the scripted rewards. -/
def scenario_steps : List (StepResponse Int) :=
  [{ observation := [[1], [2]], reward := [[1], [0]], real_reward := [[1], [0]],
     done := [[false], [false]] },
   { observation := [[3], [4]], reward := [[1], [1]], real_reward := [[1], [1]],
     done := [[false], [true]] },
   { observation := [[5], [6]], reward := [[1], [0]], real_reward := [[1], [0]],
     done := [[false], [false]] }]

/-! ## Arithmetic of the 32-bit counter -/

theorem wrap_int32_of_range (x : Int) (h0 : -(2 ^ 31) ≤ x) (h1 : x < 2 ^ 31) :
    wrap_int32 x = x := by
  unfold wrap_int32
  norm_num at h0 h1 ⊢
  omega

/-! ## `flatten_2d_vector` -/

theorem flatten_foldl_eq {T : Type} (input : List (List T)) (acc : List T) :
    input.foldl (fun output sub_vector => output ++ sub_vector) acc = acc ++ input.flatten := by
  induction input generalizing acc with
  | nil => simp
  | cons row rest ih => simp [ih]

theorem flatten_2d_vector_eq {T : Type} (input : List (List T)) :
    flatten_2d_vector input = input.flatten := by
  simp [flatten_2d_vector, flatten_foldl_eq]

theorem flatten_uniform_get {T : Type} (k : Nat) :
    ∀ (input : List (List T)), (∀ row ∈ input, row.length = k) →
      ∀ i j, i < input.length → j < k →
        input.flatten[i * k + j]? = (input[i]?).bind (fun row => row[j]?) := by
  intro input
  induction input with
  | nil => intro _ i j hi; simp at hi
  | cons row rest ih =>
    intro h i j hi hj
    have hrow : row.length = k := h row (by simp)
    have hrest : ∀ r ∈ rest, r.length = k := fun r hr => h r (by simp [hr])
    cases i with
    | zero =>
      simp [List.getElem?_append_left, hrow, hj]
    | succ i =>
      have hi2 : i < rest.length := by simpa using hi
      have : (i + 1) * k + j = row.length + (i * k + j) := by rw [hrow]; ring
      simp only [List.flatten_cons, this]
      rw [List.getElem?_append_right (by omega)]
      simp [ih hrest i j hi2 hj]

/-! ## Shaped responses -/

theorem shaped_real_reward {α : Type} [Zero α] (N : Nat) (resp : StepResponse α)
    (h : resp.shaped N) (i : Nat) (hi : i < N) :
    (flatten_2d_vector resp.real_reward)[i]? = some (real_reward_of resp i) := by
  obtain ⟨hlen, hrows, _, _⟩ := h
  have hget := flatten_uniform_get 1 resp.real_reward hrows i 0 (by omega) (by omega)
  simp only [Nat.mul_one, Nat.add_zero] at hget
  rw [flatten_2d_vector_eq, hget, real_reward_of]
  have hi2 : i < resp.real_reward.length := by omega
  have hrow : (resp.real_reward[i]).length = 1 := hrows _ (List.getElem_mem hi2)
  rw [List.getElem?_eq_getElem hi2]
  simp only [Option.some_bind]
  rw [List.getElem?_eq_getElem (by omega)]
  simp

theorem shaped_done {α : Type} (N : Nat) (resp : StepResponse α)
    (h : resp.shaped N) (i : Nat) (hi : i < N) :
    (resp.done[i]?).bind (fun row => row[0]?) = some (done_of resp i) := by
  obtain ⟨_, _, hlen, hrows⟩ := h
  have hi2 : i < resp.done.length := by omega
  have hrow : 0 < (resp.done[i]).length := hrows _ (List.getElem_mem hi2)
  rw [done_of, List.getElem?_eq_getElem hi2]
  simp only [Option.some_bind]
  rw [List.getElem?_eq_getElem hrow]
  simp

/-! ## The tracker loop computes the reference accumulation -/

theorem tracker_body_eq {α : Type} [Add α] [Zero α] (W : Nat) (real_rewards : List α)
    (done : List (List Bool)) (i : Nat) (t : Tracker α) (r : α) (d : Bool)
    (hr : real_rewards[i]? = some r) (hd : (done[i]?).bind (fun row => row[0]?) = some d)
    (hi : i < t.running_rewards.length) (hW : 0 < W) (hh : t.reward_history.length = W)
    (h0 : 0 ≤ t.episode_count) (hmax : d = true → t.episode_count + 1 < 2 ^ 31) :
    tracker_body W real_rewards done i t
      = some (apply_event W t { env := i, reward := r, done := d }) := by
  have hW0 : W ≠ 0 := by omega
  have hidx : Int.tmod t.episode_count (W : Int) = t.episode_count % (W : Int) :=
    Int.tmod_eq_emod h0 (by omega)
  have hnn : 0 ≤ t.episode_count % (W : Int) := Int.emod_nonneg _ (by omega)
  have hlt : t.episode_count % (W : Int) < (W : Int) := Int.emod_lt_of_pos _ (by omega)
  unfold tracker_body apply_event
  rw [hr, hd, List.getElem?_eq_getElem hi]
  cases d with
  | false => simp
  | true =>
    have hwrap : wrap_int32 (t.episode_count + 1) = t.episode_count + 1 :=
      wrap_int32_of_range _ (by omega) (hmax rfl)
    have hlt2 : (t.episode_count % (W : Int)).toNat < t.reward_history.length := by omega
    simp [hW0, hidx, hnn, hlt2, hwrap]
theorem apply_event_wf {α : Type} [Add α] [Zero α] (W N : Nat) (t : Tracker α) (ev : Event α)
    (h : t.wf W N) : (apply_event W t ev).wf W N := by
  obtain ⟨h1, h2, h3⟩ := h
  unfold apply_event Tracker.wf
  cases hd : ev.done
  · simpa [h1, h2] using h3
  · simp [h1, h2]
    omega

theorem apply_event_count {α : Type} [Add α] [Zero α] (W : Nat) (t : Tracker α) (ev : Event α) :
    (apply_event W t ev).episode_count = t.episode_count + (if ev.done then 1 else 0) := by
  unfold apply_event
  cases hd : ev.done <;> simp

theorem foldl_apply_event_wf {α : Type} [Add α] [Zero α] (W N : Nat) (evs : List (Event α)) :
    ∀ (t : Tracker α), t.wf W N → (evs.foldl (apply_event W) t).wf W N := by
  induction evs with
  | nil => intro t h; simpa using h
  | cons ev rest ih => intro t h; simpa using ih _ (apply_event_wf W N t ev h)

theorem foldl_apply_event_count {α : Type} [Add α] [Zero α] (W : Nat) (evs : List (Event α)) :
    ∀ (t : Tracker α),
      (evs.foldl (apply_event W) t).episode_count = t.episode_count + (done_count evs : Int) := by
  induction evs with
  | nil => intro t; simp [done_count]
  | cons ev rest ih =>
    intro t
    simp only [List.foldl_cons, ih, apply_event_count, done_count, List.countP_cons]
    cases hd : ev.done
    · simp
    · simp
      omega

theorem done_count_le_length {α : Type} (evs : List (Event α)) : done_count evs ≤ evs.length := by
  unfold done_count
  exact List.countP_le_length _

theorem done_count_cons {α : Type} (ev : Event α) (evs : List (Event α)) :
    done_count (ev :: evs) = done_count evs + (if ev.done then 1 else 0) := by
  simp [done_count, List.countP_cons]

theorem done_count_append {α : Type} (a b : List (Event α)) :
    done_count (a ++ b) = done_count a + done_count b := by
  simp [done_count, List.countP_append]

theorem tracker_loop_eq {α : Type} [Add α] [Zero α] (W N : Nat) (resp : StepResponse α)
    (hW : 0 < W) (hs : resp.shaped N) (l : List Nat) :
    ∀ (t : Tracker α), (∀ i ∈ l, i < N) → t.wf W N →
      t.episode_count + (done_count (l.map (event_of resp)) : Int) < 2 ^ 31 →
      l.foldlM (fun t i => tracker_body W (flatten_2d_vector resp.real_reward) resp.done i t) t
        = some ((l.map (event_of resp)).foldl (apply_event W) t) := by
  induction l with
  | nil => intro t _ _ _; rfl
  | cons i rest ih =>
    intro t hl hwf hmax
    have hi : i < N := hl i (by simp)
    rw [List.map_cons, done_count_cons] at hmax
    push_cast at hmax
    have hbody := tracker_body_eq W (flatten_2d_vector resp.real_reward) resp.done i t
      (real_reward_of resp i) (done_of resp i) (shaped_real_reward N resp hs i hi)
      (shaped_done N resp hs i hi) (by rw [hwf.1]; exact hi) hW hwf.2.1 hwf.2.2
      (by intro hd; simp only [event_of, hd, if_true] at hmax; omega)
    have hwf2 := apply_event_wf W N t (event_of resp i) hwf
    have hcnt := apply_event_count W t (event_of resp i)
    simp only [List.foldlM_cons, hbody, Option.some_bind, Option.bind_eq_bind, List.map_cons,
      List.foldl_cons]
    apply ih _ (fun j hj => hl j (by simp [hj])) hwf2
    rw [hcnt]
    split
    · simp_all
      omega
    · simp_all

theorem tracker_update_eq {α : Type} [Add α] [Zero α] (W N n : Nat) (resp : StepResponse α)
    (hW : 0 < W) (hs : resp.shaped N) (hn : n ≤ N) (t : Tracker α) (hwf : t.wf W N)
    (hmax : t.episode_count + (done_count (step_events n resp) : Int) < 2 ^ 31) :
    tracker_update W n resp t = some ((step_events n resp).foldl (apply_event W) t) := by
  unfold tracker_update step_events
  exact tracker_loop_eq W N resp hW hs (List.range n) t
    (fun i hi => by have := List.mem_range.mp hi; omega) hwf hmax

theorem step_events_length {α : Type} [Zero α] (n : Nat) (resp : StepResponse α) :
    (step_events n resp).length = n := by
  simp [step_events]

theorem tracker_run_eq {α : Type} [Add α] [Zero α] (W N : Nat) (hW : 0 < W)
    (steps : List (StepResponse α)) :
    ∀ (t : Tracker α), (∀ resp ∈ steps, resp.shaped N) → t.wf W N →
      t.episode_count + (done_count (run_events N steps) : Int) < 2 ^ 31 →
      tracker_run W N steps t = some ((run_events N steps).foldl (apply_event W) t) := by
  induction steps with
  | nil => intro t _ _ _; rfl
  | cons resp rest ih =>
    intro t hs hwf hmax
    have hsplit : run_events N (resp :: rest) = step_events N resp ++ run_events N rest := by
      simp [run_events]
    rw [hsplit, done_count_append] at hmax
    push_cast at hmax
    have hstep := tracker_update_eq W N N resp hW (hs resp (by simp)) (le_refl N) t hwf
      (by omega)
    have hwf2 := foldl_apply_event_wf W N (step_events N resp) t hwf
    have hcnt := foldl_apply_event_count W (step_events N resp) t
    have hrest := ih _ (fun r hr => hs r (by simp [hr])) hwf2 (by omega)
    unfold tracker_run at hrest ⊢
    simp only [List.foldlM_cons, hstep, Option.some_bind, Option.bind_eq_bind, hrest,
      hsplit, List.foldl_append]
/-! ## One step of the tracker -/

theorem step_events_succ {α : Type} [Zero α] (n : Nat) (resp : StepResponse α) :
    step_events (n + 1) resp = step_events n resp ++ [event_of resp n] := by
  simp [step_events, List.range_succ]

theorem done_count_step_events {α : Type} [Zero α] (n : Nat) (resp : StepResponse α) :
    done_count (step_events n resp) = (List.range n).countP (done_of resp) := by
  induction n with
  | zero => simp [step_events, done_count]
  | succ n ih =>
    rw [step_events_succ, List.range_succ]
    simp only [done_count, List.countP_append] at ih ⊢
    rw [ih]
    simp [event_of, List.countP_cons]

theorem apply_event_running {α : Type} [Add α] [Zero α] (W : Nat) (t : Tracker α)
    (ev : Event α) (e : Nat) :
    (apply_event W t ev).running_rewards[e]? =
      if ev.env = e ∧ e < t.running_rewards.length then
        some (if ev.done then 0 else (t.running_rewards[e]?).getD 0 + ev.reward)
      else t.running_rewards[e]? := by
  unfold apply_event
  by_cases he : ev.env = e
  · subst he
    by_cases hlt : ev.env < t.running_rewards.length
    · cases hd : ev.done <;> simp [hlt, List.getElem?_set]
    · have hnone : t.running_rewards[ev.env]? = none := by
        rw [List.getElem?_eq_none_iff]; omega
      cases hd : ev.done <;> simp [hlt, List.getElem?_set, hnone]
  · cases hd : ev.done <;> simp [he, List.getElem?_set]

theorem foldl_apply_event_running_other {α : Type} [Add α] [Zero α] (W : Nat) (e : Nat)
    (evs : List (Event α)) :
    ∀ (t : Tracker α), (∀ ev ∈ evs, ev.env ≠ e) →
      (evs.foldl (apply_event W) t).running_rewards[e]? = t.running_rewards[e]? := by
  induction evs with
  | nil => intro t _; rfl
  | cons ev rest ih =>
    intro t h
    have hne : ev.env ≠ e := h ev (by simp)
    simp only [List.foldl_cons]
    rw [ih _ (fun x hx => h x (by simp [hx])), apply_event_running]
    simp [hne]

theorem foldl_apply_event_no_done {α : Type} [Add α] [Zero α] (W : Nat)
    (evs : List (Event α)) :
    ∀ (t : Tracker α), (∀ ev ∈ evs, ev.done = false) →
      (evs.foldl (apply_event W) t).reward_history = t.reward_history ∧
      (evs.foldl (apply_event W) t).episode_count = t.episode_count := by
  induction evs with
  | nil => intro t _; exact ⟨rfl, rfl⟩
  | cons ev rest ih =>
    intro t h
    have hd : ev.done = false := h ev (by simp)
    have hrest := ih (apply_event W t ev) (fun x hx => h x (by simp [hx]))
    simp only [List.foldl_cons]
    refine ⟨hrest.1.trans ?_, hrest.2.trans ?_⟩ <;> simp [apply_event, hd]

theorem mem_step_events {α : Type} [Zero α] (n : Nat) (resp : StepResponse α) (ev : Event α)
    (h : ev ∈ step_events n resp) : ∃ i, i < n ∧ ev = event_of resp i := by
  simp only [step_events, List.mem_map, List.mem_range] at h
  obtain ⟨i, hi, rfl⟩ := h
  exact ⟨i, hi, rfl⟩

theorem step_events_split {α : Type} [Zero α] (N n : Nat) (resp : StepResponse α)
    (hn : n ≤ N) :
    ∃ later : List (Event α), step_events N resp = step_events n resp ++ later ∧
      ∀ ev ∈ later, n ≤ ev.env := by
  refine ⟨((List.range (N - n)).map (fun k => event_of resp (n + k))), ?_, ?_⟩
  · have hN : N = n + (N - n) := by omega
    conv_lhs => rw [hN]
    simp only [step_events, List.range_add, List.map_append, List.map_map]
    rfl
  · intro ev hev
    simp only [List.mem_map, List.mem_range] at hev
    obtain ⟨k, _, rfl⟩ := hev
    simp only [event_of]
    omega

theorem done_count_step_events_le {α : Type} [Zero α] (N n : Nat) (resp : StepResponse α)
    (hn : n ≤ N) : done_count (step_events n resp) ≤ done_count (step_events N resp) := by
  obtain ⟨later, hsplit, _⟩ := step_events_split N n resp hn
  rw [hsplit, done_count_append]
  omega

/-- C1 (episode tracker, one step). From a tracker state of the program (vectors of sizes
`N` and `W`, non-negative counter that its done flags do not take beyond the 32-bit range)
and a step result of shape `[N][1]`, the tracker
update returns a state. Iteration `i` of its loop starts from the state `s` left by the
iterations before it, in which the accumulator of environment `i` is still the one the step
started with and the counter has advanced by the number of done flags below `i`; it adds
`real_reward[i][0]` to `running_rewards[i]` (the shaped `reward` field has no influence on
the result); when `done[i][0]` is true it writes that sum at
index `episode_count mod W` of `reward_history`, clears `running_rewards[i]` and increments
`episode_count`; when it is false the accumulator keeps the sum and history and counter stay
as they are. At the end of the step every accumulator is `0` (done) or the old value plus the
reward (not done), the counter has advanced by the number of done flags, and without any done
flag history and counter are unchanged. -/
theorem tracker_update_one_step {α : Type} [Add α] [Zero α] (W N : Nat)
    (resp : StepResponse α) (t : Tracker α) (hW : 0 < W) (hs : resp.shaped N)
    (hwf : t.wf W N)
    (hmax : t.episode_count + ((List.range N).countP (done_of resp) : Nat) < 2 ^ 31) :
    ∃ t1 : Tracker α, tracker_update W N resp t = some t1 ∧ t1.wf W N ∧
      (∀ shaped_reward : List (List α),
        tracker_update W N { resp with reward := shaped_reward } t = some t1) ∧
      (∀ i, i < N → ∃ s s1 : Tracker α,
        tracker_update W i resp t = some s ∧ tracker_update W (i + 1) resp t = some s1 ∧
        s.running_rewards[i]? = t.running_rewards[i]? ∧
        s.episode_count = t.episode_count + ((List.range i).countP (done_of resp) : Nat) ∧
        (s.episode_count % (W : Int)).toNat < s.reward_history.length ∧
        (done_of resp i = true →
          s1.reward_history = s.reward_history.set (s.episode_count % (W : Int)).toNat
            ((s.running_rewards[i]?).getD 0 + real_reward_of resp i) ∧
          s1.running_rewards = s.running_rewards.set i 0 ∧
          s1.episode_count = s.episode_count + 1) ∧
        (done_of resp i = false →
          s1.running_rewards = s.running_rewards.set i
            ((s.running_rewards[i]?).getD 0 + real_reward_of resp i) ∧
          s1.reward_history = s.reward_history ∧
          s1.episode_count = s.episode_count)) ∧
      (∀ i, i < N → t1.running_rewards[i]? =
        some (if done_of resp i then 0
          else (t.running_rewards[i]?).getD 0 + real_reward_of resp i)) ∧
      t1.episode_count = t.episode_count + ((List.range N).countP (done_of resp) : Nat) ∧
      ((∀ i, i < N → done_of resp i = false) →
        t1.reward_history = t.reward_history ∧ t1.episode_count = t.episode_count) := by
  rw [← done_count_step_events] at hmax
  have hpre : ∀ n, n ≤ N →
      t.episode_count + (done_count (step_events n resp) : Int) < 2 ^ 31 := by
    intro n hn
    have := done_count_step_events_le N n resp hn
    omega
  have hfinal := tracker_update_eq W N N resp hW hs (le_refl N) t hwf hmax
  have hitem : ∀ i, i < N → ∃ s : Tracker α,
      tracker_update W i resp t = some s ∧
      tracker_update W (i + 1) resp t = some (apply_event W s (event_of resp i)) ∧
      s.wf W N ∧
      s.running_rewards[i]? = t.running_rewards[i]? ∧
      s.episode_count = t.episode_count + ((List.range i).countP (done_of resp) : Nat) := by
    intro i hi
    refine ⟨(step_events i resp).foldl (apply_event W) t,
      tracker_update_eq W N i resp hW hs (by omega) t hwf (hpre i (by omega)), ?_,
      foldl_apply_event_wf W N _ t hwf, ?_, ?_⟩
    · rw [tracker_update_eq W N (i + 1) resp hW hs (by omega) t hwf (hpre (i + 1) (by omega)),
        step_events_succ, List.foldl_append]
      rfl
    · apply foldl_apply_event_running_other
      intro ev hev
      obtain ⟨k, hk, rfl⟩ := mem_step_events i resp ev hev
      simp only [event_of]
      omega
    · rw [foldl_apply_event_count, done_count_step_events]
  refine ⟨_, hfinal, foldl_apply_event_wf W N _ t hwf, fun _ => hfinal, ?_, ?_, ?_, ?_⟩
  · intro i hi
    obtain ⟨s, hs1, hs2, hswf, hsrr, hsec⟩ := hitem i hi
    have hnn : 0 ≤ s.episode_count % (W : Int) := Int.emod_nonneg _ (by omega)
    have hlt : s.episode_count % (W : Int) < (W : Int) := Int.emod_lt_of_pos _ (by omega)
    refine ⟨s, _, hs1, hs2, hsrr, hsec, ?_, ?_, ?_⟩
    · rw [hswf.2.1]; omega
    · intro hd
      simp [apply_event, event_of, hd]
    · intro hd
      simp [apply_event, event_of, hd]
  · intro i hi
    obtain ⟨s, _, _, hswf, hsrr, _⟩ := hitem i hi
    obtain ⟨later, hsplit, hlater⟩ := step_events_split N (i + 1) resp hi
    rw [hsplit, List.foldl_append, foldl_apply_event_running_other W i later _
        (fun ev hev => by have := hlater ev hev; omega),
      step_events_succ, List.foldl_append]
    simp only [List.foldl_cons, List.foldl_nil]
    rw [apply_event_running]
    have hlen : i < (List.foldl (apply_event W) t (step_events i resp)).running_rewards.length := by
      rw [(foldl_apply_event_wf W N _ t hwf).1]; exact hi
    have hsame := foldl_apply_event_running_other W i (step_events i resp) t (by
      intro ev hev
      obtain ⟨k, hk, rfl⟩ := mem_step_events i resp ev hev
      simp only [event_of]
      omega)
    simp [event_of, hlen, hsame]
  · rw [foldl_apply_event_count, done_count_step_events]
  · intro hnone
    apply foldl_apply_event_no_done
    intro ev hev
    obtain ⟨k, hk, rfl⟩ := mem_step_events N resp ev hev
    exact hnone k hk
/-! ## The whole run of the tracker against the reference accumulation -/

theorem reward_total_snoc {α : Type} [Add α] [Zero α] (l : List α) (x : α) :
    reward_total (l ++ [x]) = reward_total l + x := by
  simp [reward_total, List.foldl_append]

theorem open_segment_snoc {α : Type} (evs : List (Event α)) (ev : Event α) (e : Nat) :
    open_segment (evs ++ [ev]) e =
      if ev.env = e then (if ev.done then [] else open_segment evs e ++ [ev.reward])
      else open_segment evs e := by
  unfold open_segment
  by_cases he : ev.env = e
  · cases hd : ev.done <;> simp [he, hd, List.filter_append, List.filter_cons]
  · simp [he, List.filter_append, List.filter_cons]

theorem completed_after_snoc {α : Type} [Add α] [Zero α] (l : List (Event α)) (ev : Event α) :
    ∀ (before : List (Event α)),
      completed_after before (l ++ [ev]) = completed_after before l ++
        (if ev.done then [reward_total (open_segment (before ++ l) ev.env ++ [ev.reward])]
          else []) := by
  induction l with
  | nil => intro before; simp [completed_after]
  | cons x rest ih =>
    intro before
    rw [List.cons_append]
    simp only [completed_after]
    rw [ih]
    simp

theorem completed_totals_snoc {α : Type} [Add α] [Zero α] (evs : List (Event α))
    (ev : Event α) :
    completed_totals (evs ++ [ev]) = completed_totals evs ++
      (if ev.done then [reward_total (open_segment evs ev.env) + ev.reward] else []) := by
  unfold completed_totals
  rw [completed_after_snoc, reward_total_snoc]
  simp

theorem completed_totals_length {α : Type} [Add α] [Zero α] (evs : List (Event α)) :
    (completed_totals evs).length = done_count evs := by
  induction evs using List.reverseRecOn with
  | nil => simp [completed_totals, completed_after, done_count]
  | append_singleton evs ev ih =>
    rw [completed_totals_snoc, List.length_append, ih]
    cases hd : ev.done <;> simp [done_count, List.countP_append, List.countP_cons, hd]

theorem slot_value_latest {α : Type} [Zero α] (W j : Nat) (rev : List α) :
    ∀ k, k < rev.length → k % W = j → (∀ k2, k2 < rev.length → k2 % W = j → k2 ≤ k) →
      some (slot_value W j rev) = rev.reverse[k]? := by
  induction rev with
  | nil => intro k hk; simp at hk
  | cons x older ih =>
    intro k hk hmod hmax
    simp only [List.length_cons] at hk hmax
    simp only [slot_value, List.reverse_cons]
    by_cases hnew : older.length % W = j
    · have hle := hmax older.length (by omega) hnew
      have hk2 : k = older.length := by omega
      subst hk2
      simp [hnew]
    · have hk2 : k < older.length := by
        rcases Nat.lt_or_ge k older.length with h | h
        · exact h
        · exfalso; apply hnew; have : k = older.length := by omega
          rw [← this]; exact hmod
      rw [if_neg hnew, List.getElem?_append_left (by simpa using hk2)]
      exact ih k hk2 hmod (fun k2 h2 hm => hmax k2 (by omega) hm)

theorem slot_value_none {α : Type} [Zero α] (W j : Nat) (rev : List α) :
    (∀ k, k < rev.length → k % W ≠ j) → slot_value W j rev = 0 := by
  induction rev with
  | nil => intro _; rfl
  | cons x older ih =>
    intro h
    simp only [List.length_cons] at h
    simp only [slot_value]
    rw [if_neg (h older.length (by omega))]
    exact ih (fun k hk => h k (by omega))

theorem mod_eq_gap (W k k2 : Nat) (hlt : k < k2) (hmod : k2 % W = k % W) :
    k + W ≤ k2 := by
  have h0 : (k2 - k) % W = 0 := Nat.sub_mod_eq_zero_of_mod_eq hmod
  have hdvd : W ∣ k2 - k := Nat.dvd_of_mod_eq_zero h0
  have := Nat.le_of_dvd (by omega) hdvd
  omega

/-- The tracker state agrees with the reference accumulation of the observations `evs`. -/
theorem reference_invariant {α : Type} [Add α] [Zero α] (W N : Nat)
    (evs : List (Event α)) (hev : ∀ ev ∈ evs, ev.env < N) :
    (evs.foldl (apply_event W) (tracker_start W N)).wf W N ∧
    (evs.foldl (apply_event W) (tracker_start W N)).episode_count
      = ((completed_totals evs).length : Int) ∧
    (∀ e, e < N → (evs.foldl (apply_event W) (tracker_start W N)).running_rewards[e]?
      = some (reward_total (open_segment evs e))) ∧
    (∀ j, j < W → (evs.foldl (apply_event W) (tracker_start W N)).reward_history[j]?
      = some (slot_value W j (completed_totals evs).reverse)) := by
  induction evs using List.reverseRecOn with
  | nil =>
    refine ⟨by simp [Tracker.wf, tracker_start], by simp [completed_totals, completed_after,
      tracker_start], ?_, ?_⟩
    · intro e he
      simp [tracker_start, open_segment, reward_total, he]
    · intro j hj
      simp [tracker_start, completed_totals, completed_after, slot_value, hj]
  | append_singleton evs ev ih =>
    obtain ⟨hwf, hec, hrr, hhist⟩ := ih (fun x hx => hev x (by simp [hx]))
    have henv : ev.env < N := hev ev (by simp)
    rw [List.foldl_append]
    simp only [List.foldl_cons, List.foldl_nil]
    generalize hsdef : evs.foldl (apply_event W) (tracker_start W N) = s at hwf hec hrr hhist
    have hacc : (s.running_rewards[ev.env]?).getD 0 = reward_total (open_segment evs ev.env) := by
      rw [hrr ev.env henv]; rfl
    refine ⟨apply_event_wf W N s ev hwf, ?_, ?_, ?_⟩
    · rw [apply_event_count, hec, completed_totals_snoc, List.length_append]
      cases hd : ev.done <;> simp
    · intro e he
      rw [apply_event_running, open_segment_snoc]
      by_cases hee : ev.env = e
      · subst hee
        have hlen : ev.env < s.running_rewards.length := by rw [hwf.1]; exact henv
        have hget : s.running_rewards[ev.env] = reward_total (open_segment evs ev.env) := by
          have h1 := hrr ev.env henv
          rw [List.getElem?_eq_getElem hlen] at h1
          exact Option.some.inj h1
        cases hd : ev.done
        · simp [hlen, hget, reward_total_snoc]
        · simp [hlen, reward_total]
      · simp [hee, hrr e he]
    · intro j hj
      rw [completed_totals_snoc]
      cases hd : ev.done
      · simp [apply_event, hd, hhist j hj]
      · have hidx : (s.episode_count % (W : Int)).toNat = (completed_totals evs).length % W := by
          rw [hec]; norm_cast
        simp only [apply_event, hd, if_true, hidx, hacc, List.reverse_append,
          List.reverse_cons, List.reverse_nil, List.nil_append, List.singleton_append,
          slot_value, List.length_reverse]
        rw [List.getElem?_set]
        by_cases hjj : (completed_totals evs).length % W = j
        · simp [hjj, hwf.2.1, hj]
        · simp [hjj, hhist j hj]
theorem mem_run_events {α : Type} [Zero α] (N : Nat) (steps : List (StepResponse α))
    (ev : Event α) (h : ev ∈ run_events N steps) : ev.env < N := by
  simp only [run_events, List.mem_flatMap] at h
  obtain ⟨resp, _, hev⟩ := h
  obtain ⟨i, hi, rfl⟩ := mem_step_events N resp ev hev
  exact hi

theorem run_events_append {α : Type} [Zero α] (N : Nat) (a b : List (StepResponse α)) :
    run_events N (a ++ b) = run_events N a ++ run_events N b := by
  simp [run_events]

theorem done_count_take_le {α : Type} [Zero α] (N m : Nat) (steps : List (StepResponse α)) :
    done_count (run_events N (steps.take m)) ≤ done_count (run_events N steps) := by
  conv_rhs => rw [← List.take_append_drop m steps, run_events_append]
  simp [done_count, List.countP_append]

/-- C2 (episode tracker, whole run). Starting from the initial tracker (all zero) and
processing any sequence of step results of shape `[N][1]` whose number of true done flags
fits the 32-bit counter, the run returns a tracker in which: `episode_count` is the number
of true done flags seen, which is the number `n` of completed episodes; after every shorter
run the counter is at most the final one; every accumulator is the sum of the rewards its
environment received since its last done flag; history slot `j` holds the total of the
completed episode of greatest ordinal `k` with `k mod W = j`, and `0` when no completed
episode has such an ordinal; and each of the last `W` completed episodes (ordinals `k` with
`k < n <= k + W`) has its total in slot `k mod W`, two of them never sharing a slot. -/
theorem tracker_run_history {α : Type} [Add α] [Zero α] (W N : Nat)
    (steps : List (StepResponse α)) (hW : 0 < W) (hs : ∀ resp ∈ steps, resp.shaped N)
    (hmax : done_count (run_events N steps) < 2 ^ 31) :
    ∃ t : Tracker α, tracker_run W N steps (tracker_start W N) = some t ∧
      t.episode_count = (done_count (run_events N steps) : Int) ∧
      (completed_totals (run_events N steps)).length = done_count (run_events N steps) ∧
      t.reward_history.length = W ∧
      (∀ m, ∃ tm : Tracker α,
        tracker_run W N (steps.take m) (tracker_start W N) = some tm ∧
        tm.episode_count = (done_count (run_events N (steps.take m)) : Int) ∧
        tm.episode_count ≤ t.episode_count) ∧
      (∀ e, e < N →
        t.running_rewards[e]? = some (reward_total (open_segment (run_events N steps) e))) ∧
      (∀ j k, k < (completed_totals (run_events N steps)).length → k % W = j →
        (∀ k2, k2 < (completed_totals (run_events N steps)).length → k2 % W = j → k2 ≤ k) →
        t.reward_history[j]? = (completed_totals (run_events N steps))[k]?) ∧
      (∀ j, j < W →
        (∀ k, k < (completed_totals (run_events N steps)).length → k % W ≠ j) →
        t.reward_history[j]? = some 0) ∧
      (∀ k, k < (completed_totals (run_events N steps)).length →
        (completed_totals (run_events N steps)).length ≤ k + W →
        t.reward_history[k % W]? = (completed_totals (run_events N steps))[k]? ∧
        ∀ k2, k2 < (completed_totals (run_events N steps)).length →
          (completed_totals (run_events N steps)).length ≤ k2 + W → k2 % W = k % W → k2 = k) := by
  have hstart : (tracker_start W N : Tracker α).wf W N := by simp [Tracker.wf, tracker_start]
  have hrun : ∀ l : List (StepResponse α), (∀ resp ∈ l, resp.shaped N) →
      done_count (run_events N l) ≤ done_count (run_events N steps) →
      tracker_run W N l (tracker_start W N)
        = some ((run_events N l).foldl (apply_event W) (tracker_start W N)) := by
    intro l hl hlen
    apply tracker_run_eq W N hW l _ hl hstart
    have h0 : (tracker_start W N : Tracker α).episode_count = 0 := rfl
    rw [h0]
    have h1 : ((done_count (run_events N l) : Nat) : Int) < 2 ^ 31 := by
      have h2 : done_count (run_events N l) < 2 ^ 31 := lt_of_le_of_lt hlen hmax
      exact_mod_cast h2
    omega
  obtain ⟨hwf, hec, hrr, hhist⟩ := @reference_invariant α _ _ W N (run_events N steps)
    (fun ev hev => mem_run_events N steps ev hev)
  have hlatest : ∀ j k, k < (completed_totals (run_events N steps)).length → k % W = j →
      (∀ k2, k2 < (completed_totals (run_events N steps)).length → k2 % W = j → k2 ≤ k) →
      ((run_events N steps).foldl (apply_event W) (tracker_start W N)).reward_history[j]?
        = (completed_totals (run_events N steps))[k]? := by
    intro j k hk hmod hlast
    have hj : j < W := by rw [← hmod]; exact Nat.mod_lt _ hW
    rw [hhist j hj]
    have h := slot_value_latest W j (completed_totals (run_events N steps)).reverse k
      (by simpa using hk) hmod (fun k2 h2 hm => hlast k2 (by simpa using h2) hm)
    rw [List.reverse_reverse] at h
    exact h
  refine ⟨_, hrun steps hs (le_refl _), ?_, completed_totals_length _, hwf.2.1, ?_, hrr,
    hlatest, ?_, ?_⟩
  · rw [hec, completed_totals_length]
  · intro m
    refine ⟨_, hrun (steps.take m) (fun r hr => hs r (List.mem_of_mem_take hr))
      (done_count_take_le N m steps), ?_, ?_⟩
    · rw [foldl_apply_event_count]
      simp [tracker_start]
    · rw [foldl_apply_event_count, foldl_apply_event_count]
      have := done_count_take_le N m steps
      simp only [tracker_start]
      omega
  · intro j hj hnone
    rw [hhist j hj, slot_value_none W j _ (fun k hk => hnone k (by simpa using hk))]
  · intro k hk hwin
    refine ⟨hlatest (k % W) k hk rfl ?_, ?_⟩
    · intro k2 hk2 hmod
      by_contra hlt
      have := mod_eq_gap W k k2 (by omega) hmod
      omega
    · intro k2 hk2 hwin2 hmod
      rcases Nat.lt_trichotomy k k2 with h | h | h
      · have := mod_eq_gap W k k2 h hmod
        omega
      · exact h.symm
      · have := mod_eq_gap W k2 k h hmod.symm
        omega
/-! ## Mask construction -/

theorem dones_loop_eq {α : Type} (N : Nat) (resp : StepResponse α) (hs : resp.shaped N) :
    ∀ k, k ≤ N →
      (List.range k).foldlM (dones_body resp.done) (List.replicate N [0])
        = some ((List.range N).map
            (fun i => if i < k then [if done_of resp i then (1 : Int) else 0] else [0])) := by
  intro k
  induction k with
  | zero =>
    intro _
    simp only [List.range_zero, List.foldlM_nil, Nat.not_lt_zero, if_false]
    congr 1
    apply List.ext_getElem? 
    intro i
    by_cases hi : i < N <;> simp [hi, List.getElem?_replicate]
  | succ k ih =>
    intro hk
    have hd := shaped_done N resp hs k (by omega)
    rw [List.range_succ, List.foldlM_append, ih (by omega)]
    simp only [Option.bind_eq_bind, Option.some_bind, List.foldlM_cons, List.foldlM_nil]
    unfold dones_body
    rw [hd]
    cases hdk : done_of resp k
    all_goals
      simp only [Option.pure_def, Option.bind_some]
      congr 1
      apply List.ext_getElem?
      intro i
      rw [List.getElem?_set]
      by_cases hik : k = i
      · subst hik
        have hkN : k < N := by omega
        simp [hkN, hdk]
      · by_cases hiN : i < N
        · have h1 : (i < k + 1) = (i < k) := by
            apply propext; constructor <;> intro h <;> omega
          simp [hik, hiN, h1]
        · have hnone : (List.range N)[i]? = none := by
            rw [List.getElem?_eq_none_iff]; simp; omega
          simp [hik, hnone]

/-- C4 (mask construction). For a step result whose `done` field has `N` non-empty rows, the
mask handed to `storage.insert` exists, has exactly `N` rows of one entry, the entry of
environment `i` is `0` when `done[i][0]` is true and `1` when it is false, and no entry of the
mask is anything but `0` or `1`. -/
theorem insert_mask_values {α : Type} (N : Nat) (resp : StepResponse α) (hs : resp.shaped N) :
    ∃ mask : List (List Int), insert_mask N resp.done = some mask ∧ mask.length = N ∧
      (∀ i, i < N → mask[i]? = some [if done_of resp i then 0 else 1]) ∧
      (∀ i, i < N → (done_of resp i = true → mask[i]? = some [0]) ∧
        (done_of resp i = false → mask[i]? = some [1])) ∧
      (∀ row ∈ mask, row.length = 1 ∧ ∀ x ∈ row, x = 0 ∨ x = 1) := by
  have hloop := dones_loop_eq N resp hs N (le_refl N)
  have hval : ∀ i, i < N →
      (((List.range N).map (fun i => if i < N then [if done_of resp i then (1 : Int) else 0]
        else [0])).map (fun row => row.map (fun x => 1 - x)))[i]?
        = some [if done_of resp i then 0 else 1] := by
    intro i hi
    cases hd : done_of resp i <;> simp [hi, hd]
  refine ⟨_, by rw [insert_mask, hloop]; rfl, by simp, ?_, ?_, ?_⟩
  · intro i hi
    simpa using hval i hi
  · intro i hi
    have := hval i hi
    constructor <;> intro hd <;> simpa [hd] using this
  · intro row hrow
    simp only [List.mem_map, List.mem_range] at hrow
    obtain ⟨r, ⟨i, hi, rfl⟩, rfl⟩ := hrow
    cases hd : done_of resp i <;> simp [hi, hd]
/-! ## The calls and the tracker of `main` -/

theorem insert_mask_eq {α : Type} (N : Nat) (resp : StepResponse α) (hs : resp.shaped N) :
    insert_mask N resp.done = some (((List.range N).map
      (fun i => if i < N then [if done_of resp i then (1 : Int) else 0] else [0])).map
        (fun row => row.map (fun x => 1 - x))) := by
  rw [insert_mask, dones_loop_eq N resp hs N (le_refl N)]
  rfl

theorem main_step_spec {α : Type} [Add α] [Zero α] (cfg : Config) (resp : StepResponse α)
    (s : MainState α) (hW : 0 < cfg.reward_average_window_size)
    (hs : resp.shaped cfg.num_envs)
    (hwf : s.tracker.wf cfg.reward_average_window_size cfg.num_envs)
    (hmax : s.tracker.episode_count + cfg.num_envs < 2 ^ 31) :
    ∃ s1 : MainState α, main_step cfg resp s = some s1 ∧
      s1.calls = s.calls ++ step_calls ∧
      s1.tracker.wf cfg.reward_average_window_size cfg.num_envs ∧
      s1.tracker.episode_count ≤ s.tracker.episode_count + cfg.num_envs := by
  have hle := done_count_le_length (step_events cfg.num_envs resp)
  rw [step_events_length] at hle
  have hupd := tracker_update_eq cfg.reward_average_window_size cfg.num_envs cfg.num_envs resp
    hW hs (le_refl _) s.tracker hwf (by omega)
  have hcnt := foldl_apply_event_count cfg.reward_average_window_size
    (step_events cfg.num_envs resp) s.tracker
  refine ⟨_, by rw [main_step, hupd, insert_mask_eq cfg.num_envs resp hs], ?_,
    foldl_apply_event_wf _ _ _ _ hwf, ?_⟩
  · simp [step_calls]
  · simp only
    omega

theorem main_steps_spec {α : Type} [Add α] [Zero α] (cfg : Config)
    (hW : 0 < cfg.reward_average_window_size) (l : List (StepResponse α)) :
    ∀ (s : MainState α), (∀ resp ∈ l, resp.shaped cfg.num_envs) →
      s.tracker.wf cfg.reward_average_window_size cfg.num_envs →
      s.tracker.episode_count + (l.length * cfg.num_envs : Nat) < 2 ^ 31 →
      ∃ s1 : MainState α, l.foldlM (fun s resp => main_step cfg resp s) s = some s1 ∧
        s1.calls = s.calls ++ (List.replicate l.length step_calls).flatten ∧
        s1.tracker.wf cfg.reward_average_window_size cfg.num_envs ∧
        s1.tracker.episode_count
          ≤ s.tracker.episode_count + (l.length * cfg.num_envs : Nat) := by
  induction l with
  | nil =>
    intro s _ hwf _
    exact ⟨s, rfl, by simp, hwf, by simp⟩
  | cons resp rest ih =>
    intro s hs hwf hmax
    simp only [List.length_cons, Nat.add_mul, Nat.one_mul] at hmax ⊢
    push_cast at hmax ⊢
    have hnn : (0 : Int) ≤ (rest.length : Int) * (cfg.num_envs : Int) := by positivity
    obtain ⟨s1, h1, hc1, hwf1, hec1⟩ := main_step_spec cfg resp s hW (hs resp (by simp)) hwf
      (by omega)
    obtain ⟨s2, h2, hc2, hwf2, hec2⟩ := ih s1 (fun r hr => hs r (by simp [hr])) hwf1
      (by push_cast; omega)
    push_cast at hec2
    refine ⟨s2, by simp [List.foldlM_cons, h1, h2], ?_, hwf2, by omega⟩
    rw [hc2, hc1, List.replicate_succ, List.flatten_cons, List.append_assoc]

theorem main_update_core_spec {α : Type} [Add α] [Zero α] (cfg : Config)
    (env : Nat → StepResponse α) (update k : Nat) (s : MainState α)
    (hW : 0 < cfg.reward_average_window_size) (hs : ∀ j, (env j).shaped cfg.num_envs)
    (hwf : s.tracker.wf cfg.reward_average_window_size cfg.num_envs)
    (hmax : s.tracker.episode_count + (k * cfg.num_envs : Nat) < 2 ^ 31) :
    ∃ s1 : MainState α,
      (List.range k).foldlM
        (fun s step => main_step cfg (env (update * cfg.batch_size + step)) s) s = some s1 ∧
      s1.calls = s.calls ++ (List.replicate k step_calls).flatten ∧
      s1.tracker.wf cfg.reward_average_window_size cfg.num_envs ∧
      s1.tracker.episode_count ≤ s.tracker.episode_count + (k * cfg.num_envs : Nat) := by
  have h := main_steps_spec cfg hW
    ((List.range k).map (fun step => env (update * cfg.batch_size + step))) s
    (by intro resp hr; simp only [List.mem_map] at hr; obtain ⟨j, _, rfl⟩ := hr; exact hs _)
    hwf (by simpa using hmax)
  simp only [List.length_map, List.length_range, List.foldlM_map] at h
  exact h

theorem main_update_spec {α : Type} [Add α] [Zero α] (cfg : Config)
    (env : Nat → StepResponse α) (update : Nat) (s : MainState α)
    (hW : 0 < cfg.reward_average_window_size) (hs : ∀ j, (env j).shaped cfg.num_envs)
    (hwf : s.tracker.wf cfg.reward_average_window_size cfg.num_envs)
    (hmax : s.tracker.episode_count + (cfg.batch_size * cfg.num_envs : Nat) < 2 ^ 31) :
    ∃ s1 s2 : MainState α, main_update_core cfg env update s = some s1 ∧
      main_update cfg env update s = some s2 ∧
      s1.calls = s.calls ++ (List.replicate cfg.batch_size step_calls).flatten
        ++ closing_calls ∧
      s2.calls = s.calls ++ update_calls cfg update ∧ s2.tracker = s1.tracker ∧
      s1.tracker.wf cfg.reward_average_window_size cfg.num_envs ∧
      s1.tracker.episode_count
        ≤ s.tracker.episode_count + (cfg.batch_size * cfg.num_envs : Nat) := by
  obtain ⟨s1, h1, hc1, hwf1, hec1⟩ :=
    main_update_core_spec cfg env update cfg.batch_size s hW hs hwf hmax
  have hcore : main_update_core cfg env update s
      = some { calls := s1.calls ++ closing_calls, tracker := s1.tracker } := by
    rw [main_update_core, h1]; rfl
  by_cases hlog : update % 10 = 0
  · refine ⟨_, MainState.mk (s1.calls ++ closing_calls ++ [Call.log_info update]) s1.tracker,
      hcore, ?_, by simp [hc1], ?_, rfl, hwf1, hec1⟩
    · rw [main_update, hcore]; simp [hlog]
    · simp [hlog, hc1, update_calls]
  · refine ⟨_, MainState.mk (s1.calls ++ closing_calls) s1.tracker, hcore, ?_,
      by simp [hc1], ?_, rfl, hwf1, hec1⟩
    · rw [main_update, hcore]; simp [hlog]
    · simp [hlog, hc1, update_calls]

theorem main_loop_spec {α : Type} [Add α] [Zero α] (cfg : Config)
    (env : Nat → StepResponse α) (hW : 0 < cfg.reward_average_window_size)
    (hs : ∀ j, (env j).shaped cfg.num_envs) (n : Nat)
    (hmax : n * (cfg.batch_size * cfg.num_envs) < 2 ^ 31) :
    ∃ s : MainState α, main_loop cfg env n (main_startup cfg) = some s ∧
      s.calls = startup_calls ++ loop_calls cfg n ∧
      s.tracker.wf cfg.reward_average_window_size cfg.num_envs ∧
      s.tracker.episode_count ≤ (n * (cfg.batch_size * cfg.num_envs) : Nat) := by
  induction n with
  | zero =>
    refine ⟨main_startup cfg, rfl, by simp [loop_calls, main_startup], ?_,
      by simp [main_startup, tracker_start]⟩
    simp [Tracker.wf, main_startup, tracker_start]
  | succ n ih =>
    have hlt : n * (cfg.batch_size * cfg.num_envs) + cfg.batch_size * cfg.num_envs < 2 ^ 31 := by
      rw [Nat.add_mul, Nat.one_mul] at hmax; exact hmax
    obtain ⟨s, h, hc, hwf, hec⟩ := ih (by omega)
    have hlt2 : ((n * (cfg.batch_size * cfg.num_envs) : Nat) : Int)
        + ((cfg.batch_size * cfg.num_envs : Nat) : Int) < 2 ^ 31 := by exact_mod_cast hlt
    obtain ⟨s1, s2, _, h2, _, hc2, ht2, hwf1, hec1⟩ :=
      main_update_spec cfg env n s hW hs hwf (by omega)
    refine ⟨s2, ?_, ?_, by rw [ht2]; exact hwf1, ?_⟩
    · unfold main_loop at h ⊢
      rw [List.range_succ, List.foldlM_append, h]
      simpa using h2
    · rw [hc2, hc, loop_calls, loop_calls, List.range_succ, List.flatMap_append]
      simp
    · rw [ht2, Nat.add_mul, Nat.one_mul]
      push_cast at hec hec1 ⊢
      omega
theorem main_step_tracker {α : Type} [Add α] [Zero α] (cfg : Config) (resp : StepResponse α)
    (s s1 : MainState α) (hW : 0 < cfg.reward_average_window_size)
    (hs : resp.shaped cfg.num_envs)
    (hwf : s.tracker.wf cfg.reward_average_window_size cfg.num_envs)
    (hmax : s.tracker.episode_count + cfg.num_envs < 2 ^ 31)
    (h : main_step cfg resp s = some s1) :
    s1.tracker = (step_events cfg.num_envs resp).foldl
      (apply_event cfg.reward_average_window_size) s.tracker := by
  have hle := done_count_le_length (step_events cfg.num_envs resp)
  rw [step_events_length] at hle
  have hupd := tracker_update_eq cfg.reward_average_window_size cfg.num_envs cfg.num_envs resp
    hW hs (le_refl _) s.tracker hwf (by omega)
  rw [main_step, hupd, insert_mask_eq cfg.num_envs resp hs] at h
  simp only [Option.some.injEq] at h
  rw [← h]

theorem main_steps_tracker {α : Type} [Add α] [Zero α] (cfg : Config)
    (hW : 0 < cfg.reward_average_window_size) (l : List (StepResponse α)) :
    ∀ (s s2 : MainState α), (∀ resp ∈ l, resp.shaped cfg.num_envs) →
      s.tracker.wf cfg.reward_average_window_size cfg.num_envs →
      s.tracker.episode_count + (l.length * cfg.num_envs : Nat) < 2 ^ 31 →
      l.foldlM (fun s resp => main_step cfg resp s) s = some s2 →
      s2.tracker = (run_events cfg.num_envs l).foldl
        (apply_event cfg.reward_average_window_size) s.tracker := by
  induction l with
  | nil =>
    intro s s2 _ _ _ h
    simp only [List.foldlM_nil, Option.pure_def, Option.some.injEq] at h
    rw [← h]
    rfl
  | cons resp rest ih =>
    intro s s2 hs hwf hmax h
    simp only [List.length_cons, Nat.add_mul, Nat.one_mul] at hmax
    push_cast at hmax
    have hnn : (0 : Int) ≤ (rest.length : Int) * (cfg.num_envs : Int) := by positivity
    obtain ⟨s1, h1, _, hwf1, hec1⟩ := main_step_spec cfg resp s hW (hs resp (by simp)) hwf
      (by omega)
    have ht1 := main_step_tracker cfg resp s s1 hW (hs resp (by simp)) hwf (by omega) h1
    simp only [List.foldlM_cons, h1, Option.bind_eq_bind, Option.some_bind] at h
    have ht2 := ih s1 s2 (fun r hr => hs r (by simp [hr])) hwf1 (by push_cast; omega) h
    rw [ht2, ht1]
    simp [run_events, List.foldl_append]

theorem main_at_logging_first {α : Type} [Add α] [Zero α] (cfg : Config)
    (env : Nat → StepResponse α) (hW : 0 < cfg.reward_average_window_size)
    (hs : ∀ j, (env j).shaped cfg.num_envs)
    (hmax : cfg.batch_size * cfg.num_envs < 2 ^ 31) :
    ∃ s : MainState α, main_at_logging cfg env 0 = some s ∧
      s.tracker = (run_events cfg.num_envs ((List.range cfg.batch_size).map env)).foldl
        (apply_event cfg.reward_average_window_size)
        (tracker_start cfg.reward_average_window_size cfg.num_envs) := by
  have hwf : (main_startup cfg : MainState α).tracker.wf cfg.reward_average_window_size
      cfg.num_envs := by simp [Tracker.wf, main_startup, tracker_start]
  have hlt : (main_startup cfg : MainState α).tracker.episode_count
      + ((cfg.batch_size * cfg.num_envs : Nat) : Int) < 2 ^ 31 := by
    have h0 : (main_startup cfg : MainState α).tracker.episode_count = 0 := rfl
    rw [h0]
    have : ((cfg.batch_size * cfg.num_envs : Nat) : Int) < 2 ^ 31 := by exact_mod_cast hmax
    omega
  obtain ⟨s1, h1, _, _, _⟩ :=
    main_update_core_spec cfg env 0 cfg.batch_size (main_startup cfg) hW hs hwf hlt
  have hfun : (fun (s : MainState α) step => main_step cfg (env (0 * cfg.batch_size + step)) s)
      = (fun s step => main_step cfg (env step) s) := by
    funext s step
    rw [Nat.zero_mul, Nat.zero_add]
  rw [hfun] at h1
  have h2 : ((List.range cfg.batch_size).map env).foldlM
      (fun s resp => main_step cfg resp s) (main_startup cfg) = some s1 := by
    rw [List.foldlM_map]; exact h1
  have ht := main_steps_tracker cfg hW ((List.range cfg.batch_size).map env)
    (main_startup cfg) s1
    (by intro resp hr; simp only [List.mem_map] at hr; obtain ⟨j, _, rfl⟩ := hr; exact hs _)
    hwf (by simpa using hlt) h2
  refine ⟨{ s1 with calls := s1.calls ++ closing_calls }, ?_, ht⟩
  have hloop0 : main_loop cfg env 0 (main_startup cfg) = some (main_startup cfg) := rfl
  rw [main_at_logging, hloop0]
  simp only [Option.some_bind, main_update_core, hfun, Nat.zero_mul, Nat.zero_add, h1]
  rfl
/-! ## Monitors on the calls of `main` -/

theorem foldlM_take_some {σ β : Type} (f : σ → β → Option σ) (l : List β) (a b : σ)
    (h : l.foldlM f a = some b) (m : Nat) : ∃ c, (l.take m).foldlM f a = some c := by
  rw [← List.take_append_drop m l, List.foldlM_append] at h
  cases hc : (l.take m).foldlM f a with
  | none => rw [hc] at h; simp at h
  | some c => exact ⟨c, rfl⟩

theorem comm_run_step_calls (k : Nat) :
    (List.replicate k step_calls).flatten.foldlM comm_step CommState.awaiting_request
      = some CommState.awaiting_request := by
  induction k with
  | zero => rfl
  | succ k ih =>
    rw [List.replicate_succ, List.flatten_cons, List.foldlM_append]
    have h1 : step_calls.foldlM comm_step CommState.awaiting_request
        = some CommState.awaiting_request := by decide
    rw [h1]
    exact ih

theorem comm_run_update_calls (cfg : Config) (u : Nat) :
    (update_calls cfg u).foldlM comm_step CommState.awaiting_request
      = some CommState.awaiting_request := by
  unfold update_calls
  rw [List.foldlM_append, List.foldlM_append, comm_run_step_calls]
  by_cases hlog : u % 10 = 0 <;> simp [hlog, closing_calls, comm_step]

theorem comm_run_loop_calls (cfg : Config) (n : Nat) :
    (loop_calls cfg n).foldlM comm_step CommState.awaiting_request
      = some CommState.awaiting_request := by
  induction n with
  | zero => rfl
  | succ n ih =>
    rw [loop_calls, List.range_succ, List.flatMap_append, List.foldlM_append]
    rw [loop_calls] at ih
    rw [ih]
    simpa using comm_run_update_calls cfg n

theorem comm_run_main_calls (cfg : Config) (n : Nat) :
    comm_run (startup_calls ++ loop_calls cfg n) = some CommState.awaiting_request := by
  unfold comm_run
  rw [List.foldlM_append]
  have h1 : startup_calls.foldlM comm_step CommState.awaiting_request
      = some CommState.awaiting_request := by decide
  rw [h1]
  exact comm_run_loop_calls cfg n

theorem communicator_calls_append (a b : List Call) :
    communicator_calls (a ++ b) = communicator_calls a ++ communicator_calls b := by
  simp [communicator_calls]

theorem communicator_calls_steps (k : Nat) :
    communicator_calls (List.replicate k step_calls).flatten
      = (List.replicate k [Call.send_request "step",
          Call.get_response ResponseType.StepResponse]).flatten := by
  induction k with
  | zero => rfl
  | succ k ih =>
    rw [List.replicate_succ, List.flatten_cons, communicator_calls_append, ih,
      List.replicate_succ, List.flatten_cons]
    rfl

theorem communicator_calls_update (cfg : Config) (u : Nat) :
    communicator_calls (update_calls cfg u)
      = (List.replicate cfg.batch_size [Call.send_request "step",
          Call.get_response ResponseType.StepResponse]).flatten := by
  unfold update_calls
  rw [communicator_calls_append, communicator_calls_append, communicator_calls_steps]
  by_cases hlog : u % 10 = 0 <;> simp [hlog, closing_calls, communicator_calls]

theorem replicate_flatten_add {β : Type} (a b : Nat) (l : List β) :
    (List.replicate (a + b) l).flatten
      = (List.replicate a l).flatten ++ (List.replicate b l).flatten := by
  rw [List.replicate_add, List.flatten_append]

theorem communicator_calls_loop (cfg : Config) (n : Nat) :
    communicator_calls (loop_calls cfg n)
      = (List.replicate (n * cfg.batch_size) [Call.send_request "step",
          Call.get_response ResponseType.StepResponse]).flatten := by
  induction n with
  | zero => simp [loop_calls, communicator_calls]
  | succ n ih =>
    rw [loop_calls, List.range_succ, List.flatMap_append, communicator_calls_append]
    rw [loop_calls] at ih
    rw [ih, Nat.add_mul, Nat.one_mul, replicate_flatten_add]
    simp [communicator_calls_update]

/-- C5 (request/response alternation). Whenever the environment answers with step results of
the protocol shape, `main` runs to its end and: its calls on the communicator are exactly
`send_request "make"`, `get_response<MakeResponse>`, `send_request "info"`,
`get_response<InfoResponse>`, `send_request "reset"`, `get_response<ResetResponse>`, followed
by `num_updates * batch_size` pairs `send_request "step"`, `get_response<StepResponse>`; the
two-state communicator accepts every initial segment of the calls of `main`, so no request is
sent while a response is pending and every response read has the type of the pending command;
the run ends with no response pending; and one iteration of the inner loop contains exactly
one step exchange. -/
theorem main_request_response_alternation {α : Type} [Add α] [Zero α] (cfg : Config)
    (env : Nat → StepResponse α) (hW : 0 < cfg.reward_average_window_size)
    (hs : ∀ k, (env k).shaped cfg.num_envs)
    (hmax : cfg.num_updates * (cfg.batch_size * cfg.num_envs) < 2 ^ 31) :
    ∃ s : MainState α, main cfg env = some s ∧
      communicator_calls s.calls =
        [Call.send_request "make", Call.get_response ResponseType.MakeResponse,
         Call.send_request "info", Call.get_response ResponseType.InfoResponse,
         Call.send_request "reset", Call.get_response ResponseType.ResetResponse] ++
        (List.replicate (cfg.num_updates * cfg.batch_size)
          [Call.send_request "step", Call.get_response ResponseType.StepResponse]).flatten ∧
      (∀ m, ∃ st, comm_run (s.calls.take m) = some st) ∧
      comm_run s.calls = some CommState.awaiting_request ∧
      communicator_calls step_calls =
        [Call.send_request "step", Call.get_response ResponseType.StepResponse] := by
  obtain ⟨s, h, hc, _, _⟩ := main_loop_spec cfg env hW hs cfg.num_updates hmax
  have hrun : comm_run s.calls = some CommState.awaiting_request := by
    rw [hc]; exact comm_run_main_calls cfg cfg.num_updates
  refine ⟨s, h, ?_, ?_, hrun, rfl⟩
  · rw [hc, communicator_calls_append, communicator_calls_loop]
    rfl
  · intro m
    exact foldlM_take_some comm_step s.calls _ _ hrun m
/-! ## Storage cadence -/

theorem storage_calls_append (a b : List Call) :
    storage_calls (a ++ b) = storage_calls a ++ storage_calls b := by
  simp [storage_calls]

theorem storage_calls_steps (k : Nat) :
    storage_calls (List.replicate k step_calls).flatten = List.replicate k Call.insert := by
  induction k with
  | zero => rfl
  | succ k ih =>
    rw [List.replicate_succ, List.flatten_cons, storage_calls_append, ih, List.replicate_succ]
    rfl

theorem storage_calls_update (cfg : Config) (u : Nat) :
    storage_calls (update_calls cfg u)
      = List.replicate cfg.batch_size Call.insert ++
          [Call.compute_returns, Call.update, Call.after_update] := by
  unfold update_calls
  rw [storage_calls_append, storage_calls_append, storage_calls_steps]
  by_cases hlog : u % 10 = 0 <;> simp [hlog, closing_calls, storage_calls]

theorem storage_calls_loop (cfg : Config) (n : Nat) :
    storage_calls (loop_calls cfg n)
      = (List.replicate n (List.replicate cfg.batch_size Call.insert ++
          [Call.compute_returns, Call.update, Call.after_update])).flatten := by
  induction n with
  | zero => simp [loop_calls, storage_calls]
  | succ n ih =>
    rw [loop_calls, List.range_succ, List.flatMap_append, storage_calls_append]
    rw [loop_calls] at ih
    rw [ih, replicate_flatten_add]
    simp [storage_calls_update]

theorem storage_run_steps (batch : Nat) (k : Nat) :
    ∀ c, c + k ≤ batch + 1 →
      (List.replicate k step_calls).flatten.foldlM (storage_step batch) c = some (c + k) := by
  induction k with
  | zero => intro c _; rfl
  | succ k ih =>
    intro c hc
    rw [List.replicate_succ, List.flatten_cons, List.foldlM_append]
    have h1 : step_calls.foldlM (storage_step batch) c = some (c + 1) := by
      have hle : c ≤ batch := by omega
      simp [step_calls, storage_step, hle]
    rw [h1]
    simp only [Option.bind_eq_bind, Option.some_bind]
    rw [ih (c + 1) (by omega)]
    congr 1
    omega

theorem storage_run_update (cfg : Config) (u : Nat) :
    (update_calls cfg u).foldlM (storage_step cfg.batch_size) 1 = some 1 := by
  unfold update_calls
  rw [List.foldlM_append, List.foldlM_append, storage_run_steps cfg.batch_size cfg.batch_size 1
    (by omega)]
  have h1 : (1 + cfg.batch_size = cfg.batch_size + 1) := by omega
  by_cases hlog : u % 10 = 0 <;> simp [hlog, closing_calls, storage_step, h1]

theorem storage_run_loop (cfg : Config) (n : Nat) :
    (loop_calls cfg n).foldlM (storage_step cfg.batch_size) 1 = some 1 := by
  induction n with
  | zero => rfl
  | succ n ih =>
    rw [loop_calls, List.range_succ, List.flatMap_append, List.foldlM_append]
    rw [loop_calls] at ih
    rw [ih]
    simpa using storage_run_update cfg n

theorem storage_run_main_calls (cfg : Config) (n c0 : Nat) :
    storage_run cfg.batch_size c0 (startup_calls ++ loop_calls cfg n) = some 1 := by
  unfold storage_run
  rw [List.foldlM_append]
  have h1 : startup_calls.foldlM (storage_step cfg.batch_size) c0 = some 1 := by
    simp [startup_calls, storage_step]
  rw [h1]
  exact storage_run_loop cfg n

/-- C7 (step/update cadence). Whenever the environment answers with step results of the
protocol shape, `main` runs to its end and: its storage operations are
`set_first_observation` followed, for each of the `num_updates` iterations of the update loop,
by `batch_size` calls of `insert`, then one `compute_returns`, one learner `update` and one
`after_update`; an iteration of the update loop consists of `batch_size` inner iterations,
each made of `act`, one step exchange and one `insert` in this order, followed by the closing
calls; and a storage whose cursor is `1` after `set_first_observation` and `after_update`,
advances with every `insert`, requires `cursor <= batch_size` at `insert` and a full buffer at
`compute_returns`, accepts every initial segment of the calls of `main` from any initial
cursor, the cursor being `1` again when `main` ends. -/
theorem main_storage_cadence {α : Type} [Add α] [Zero α] (cfg : Config)
    (env : Nat → StepResponse α) (c0 : Nat) (hW : 0 < cfg.reward_average_window_size)
    (hs : ∀ k, (env k).shaped cfg.num_envs)
    (hmax : cfg.num_updates * (cfg.batch_size * cfg.num_envs) < 2 ^ 31) :
    ∃ s : MainState α, main cfg env = some s ∧
      s.calls = startup_calls ++ (List.range cfg.num_updates).flatMap (fun u =>
        (List.replicate cfg.batch_size
          [Call.act, Call.send_request "step", Call.get_response ResponseType.StepResponse,
            Call.insert]).flatten ++
          [Call.get_values, Call.compute_returns, Call.update, Call.after_update] ++
          (if u % 10 = 0 then [Call.log_info u] else [])) ∧
      storage_calls s.calls = [Call.set_first_observation] ++
        (List.replicate cfg.num_updates (List.replicate cfg.batch_size Call.insert ++
          [Call.compute_returns, Call.update, Call.after_update])).flatten ∧
      (∀ m, ∃ c, storage_run cfg.batch_size c0 (s.calls.take m) = some c) ∧
      storage_run cfg.batch_size c0 s.calls = some 1 := by
  obtain ⟨s, h, hc, _, _⟩ := main_loop_spec cfg env hW hs cfg.num_updates hmax
  have hrun : storage_run cfg.batch_size c0 s.calls = some 1 := by
    rw [hc]; exact storage_run_main_calls cfg cfg.num_updates c0
  refine ⟨s, h, ?_, ?_, ?_, hrun⟩
  · rw [hc]; rfl
  · rw [hc, storage_calls_append, storage_calls_loop]
    rfl
  · intro m
    exact foldlM_take_some (storage_step cfg.batch_size) s.calls _ _ hrun m
/-! ## Logging -/

theorem count_insert_steps (k : Nat) :
    (List.replicate k step_calls).flatten.count Call.insert = k := by
  induction k with
  | zero => rfl
  | succ k ih =>
    rw [List.replicate_succ, List.flatten_cons, List.count_append, ih]
    have h1 : step_calls.count Call.insert = 1 := by decide
    omega

theorem count_insert_update (cfg : Config) (u : Nat) :
    (update_calls cfg u).count Call.insert = cfg.batch_size := by
  unfold update_calls
  rw [List.count_append, List.count_append, count_insert_steps]
  have h1 : closing_calls.count Call.insert = 0 := by decide
  by_cases hlog : u % 10 = 0 <;> simp [hlog, h1]

theorem count_insert_loop (cfg : Config) (n : Nat) :
    (loop_calls cfg n).count Call.insert = n * cfg.batch_size := by
  induction n with
  | zero => simp [loop_calls]
  | succ n ih =>
    rw [loop_calls, List.range_succ, List.flatMap_append, List.count_append]
    rw [loop_calls] at ih
    rw [ih, Nat.add_mul, Nat.one_mul]
    simp [count_insert_update]

theorem main_at_logging_spec {α : Type} [Add α] [Zero α] (cfg : Config)
    (env : Nat → StepResponse α) (hW : 0 < cfg.reward_average_window_size)
    (hs : ∀ j, (env j).shaped cfg.num_envs) (u : Nat)
    (hmax : (u + 1) * (cfg.batch_size * cfg.num_envs) < 2 ^ 31) :
    ∃ s : MainState α, main_at_logging cfg env u = some s ∧
      s.calls = startup_calls ++ loop_calls cfg u ++
        (List.replicate cfg.batch_size step_calls).flatten ++ closing_calls ∧
      s.calls.count Call.insert = (u + 1) * cfg.batch_size ∧
      s.tracker.wf cfg.reward_average_window_size cfg.num_envs ∧
      s.tracker.episode_count ≤ ((u + 1) * (cfg.batch_size * cfg.num_envs) : Nat) := by
  have hlt : u * (cfg.batch_size * cfg.num_envs) + cfg.batch_size * cfg.num_envs < 2 ^ 31 := by
    rw [Nat.add_mul, Nat.one_mul] at hmax; exact hmax
  obtain ⟨s, h, hc, hwf, hec⟩ := main_loop_spec cfg env hW hs u (by omega)
  have hlt2 : ((u * (cfg.batch_size * cfg.num_envs) : Nat) : Int)
      + ((cfg.batch_size * cfg.num_envs : Nat) : Int) < 2 ^ 31 := by exact_mod_cast hlt
  obtain ⟨s1, _, h1, _, hc1, _, _, hwf1, hec1⟩ :=
    main_update_spec cfg env u s hW hs hwf (by omega)
  refine ⟨s1, by rw [main_at_logging, h]; exact h1, by rw [hc1, hc], ?_, hwf1, ?_⟩
  · rw [hc1, hc, List.count_append, List.count_append, List.count_append, count_insert_loop,
      count_insert_steps]
    have h2 : startup_calls.count Call.insert = 0 := by decide
    have h3 : closing_calls.count Call.insert = 0 := by decide
    rw [h2, h3, Nat.add_mul, Nat.one_mul]
    omega
  · rw [Nat.add_mul, Nat.one_mul]
    push_cast at hec hec1 ⊢
    omega

theorem total_steps_source (u : Nat) (hu : u < num_updates) :
    total_steps source_config u = ((u + 1) * batch_size * num_envs : Nat) := by
  simp only [num_updates] at hu
  simp only [total_steps, source_config, batch_size, num_envs]
  push_cast
  rw [wrap_int32_of_range ((u : Int) + 1) (by omega) (by omega),
    wrap_int32_of_range (((u : Int) + 1) * 5) (by omega) (by omega),
    wrap_int32_of_range ((((u : Int) + 1) * 5) * 8) (by omega) (by omega)]

/-- C8 (throughput guard). In the compiled configuration, when iteration `update` of the
update loop (`update < 100000`) reaches the logging test: for every non-negative whole number
of elapsed seconds the divisor `secs + 1e-9`, computed with any monotone rounding that keeps
`0` and the positive constant, is strictly positive; `total_steps` is
`(update + 1) * batch_size * num_envs` without 32-bit overflow; and this is the number of
`insert` calls made so far times `num_envs`, the number of per-environment transitions
collected. -/
theorem logging_throughput_guard {α : Type} [Add α] [Zero α] (env : Nat → StepResponse α)
    (hs : ∀ k, (env k).shaped num_envs) (update : Nat) (hu : update < num_updates)
    (rnd : ℚ → ℚ) (eps : ℚ) (hmono : Monotone rnd) (hzero : rnd 0 = 0)
    (hconst : rnd eps = eps) (hpos : 0 < eps) :
    (∀ secs : Int, 0 ≤ secs → 0 < fps_divisor rnd eps secs) ∧
    total_steps source_config update = ((update + 1) * batch_size * num_envs : Nat) ∧
    ∃ s : MainState α, main_at_logging source_config env update = some s ∧
      total_steps source_config update = ((s.calls.count Call.insert * num_envs : Nat) : Int) := by
  have hu2 : update < 100000 := hu
  obtain ⟨s, h, _, hcount, _, _⟩ := main_at_logging_spec source_config env
    (by decide) hs update (by
      simp only [source_config, batch_size, num_envs]
      omega)
  refine ⟨?_, total_steps_source update hu, s, h, ?_⟩
  · intro secs hsecs
    unfold fps_divisor
    have h1 : (0 : ℚ) ≤ rnd (secs : ℚ) := by
      rw [← hzero]
      exact hmono (by exact_mod_cast hsecs)
    have h2 : eps ≤ rnd (rnd (secs : ℚ) + eps) := by
      conv_lhs => rw [← hconst]
      exact hmono (by linarith)
    linarith
  · rw [total_steps_source update hu, hcount]
    rfl

/-! ## Tracker indices -/

theorem tracker_at_spec {α : Type} [Add α] [Zero α] (cfg : Config)
    (env : Nat → StepResponse α) (hW : 0 < cfg.reward_average_window_size)
    (hs : ∀ j, (env j).shaped cfg.num_envs) (u step i : Nat) (hi : i ≤ cfg.num_envs)
    (hmax : u * (cfg.batch_size * cfg.num_envs) + step * cfg.num_envs + i < 2 ^ 31) :
    ∃ t : Tracker α, tracker_at cfg env u step i = some t ∧
      t.wf cfg.reward_average_window_size cfg.num_envs ∧
      t.episode_count ≤ (u * (cfg.batch_size * cfg.num_envs) + step * cfg.num_envs + i : Nat) := by
  obtain ⟨s, h, _, hwf, hec⟩ := main_loop_spec cfg env hW hs u (by omega)
  have hlt : ((u * (cfg.batch_size * cfg.num_envs) : Nat) : Int)
      + ((step * cfg.num_envs : Nat) : Int) + (i : Int) < 2 ^ 31 := by exact_mod_cast hmax
  obtain ⟨s1, h1, _, hwf1, hec1⟩ :=
    main_update_core_spec cfg env u step s hW hs hwf (by omega)
  have hle := done_count_step_events_le cfg.num_envs i (env (u * cfg.batch_size + step)) hi
  have hle2 := done_count_le_length (step_events i (env (u * cfg.batch_size + step)))
  rw [step_events_length] at hle2
  have hupd := tracker_update_eq cfg.reward_average_window_size cfg.num_envs i
    (env (u * cfg.batch_size + step)) hW (hs _) hi s1.tracker hwf1 (by omega)
  have hcnt := foldl_apply_event_count cfg.reward_average_window_size
    (step_events i (env (u * cfg.batch_size + step))) s1.tracker
  refine ⟨_, by rw [tracker_at, h]; simp only [Option.some_bind, h1]; exact hupd,
    foldl_apply_event_wf _ _ _ _ hwf1, ?_⟩
  rw [hcnt]
  push_cast at hec hec1 hlt ⊢
  omega
/-! ## Bounds of the tracker in the compiled configuration -/

/-- C10 (tracker indexing in bounds). In the compiled configuration, with step results of the
protocol shape, take any iteration `update < 100000` of the update loop, any iteration
`step < 5` of the inner loop and any `i <= 8`: when the tracker loop tests `i < num_envs` the
tracker variables exist (no out-of-range access happened before) and `episode_count` lies in
`[0, 4000000]`, where `4000000 = 100000 * 5 * 8 < 2^31`, so the 32-bit increment does not
wrap; the write index `episode_count % reward_average_window_size` is non-negative and below
the length of `reward_history`, which is `reward_average_window_size`; and `running_rewards`
has length `num_envs`, so every `i < num_envs` is a valid index. The same bounds hold when
`main` ends. -/
theorem tracker_indices_in_bounds {α : Type} [Add α] [Zero α] (env : Nat → StepResponse α)
    (hs : ∀ k, (env k).shaped num_envs) (update step i : Nat) (hu : update < num_updates)
    (hstep : step < batch_size) (hi : i ≤ num_envs) :
    (∃ t : Tracker α, tracker_at source_config env update step i = some t ∧
      0 ≤ t.episode_count ∧ t.episode_count ≤ 4000000 ∧
      wrap_int32 (t.episode_count + 1) = t.episode_count + 1 ∧
      0 ≤ Int.tmod t.episode_count (reward_average_window_size : Int) ∧
      (Int.tmod t.episode_count (reward_average_window_size : Int)).toNat
        < t.reward_history.length ∧
      t.reward_history.length = reward_average_window_size ∧
      t.running_rewards.length = num_envs ∧
      (i < num_envs → i < t.running_rewards.length)) ∧
    (∃ s : MainState α, main source_config env = some s ∧
      0 ≤ s.tracker.episode_count ∧ s.tracker.episode_count ≤ 4000000 ∧
      s.tracker.reward_history.length = reward_average_window_size ∧
      s.tracker.running_rewards.length = num_envs) ∧
    ((num_updates * batch_size * num_envs : Nat) : Int) = 4000000 ∧
    (4000000 : Int) < 2 ^ 31 := by
  have hu2 : update < 100000 := hu
  have hstep2 : step < 5 := hstep
  have hi2 : i ≤ 8 := hi
  refine ⟨?_, ?_, by decide, by decide⟩
  · obtain ⟨t, ht, hwf, hec⟩ := tracker_at_spec source_config env (by decide) hs update step i
      hi (by simp only [source_config, batch_size, num_envs]; omega)
    obtain ⟨hrr, hhist, h0⟩ := hwf
    simp only [source_config, batch_size, num_envs, reward_average_window_size] at hec hrr hhist
    push_cast at hec
    have hle : t.episode_count ≤ 4000000 := by omega
    have hmod : Int.tmod t.episode_count ((10 : Nat) : Int) = t.episode_count % 10 :=
      Int.tmod_eq_emod h0 (by decide)
    refine ⟨t, ht, h0, hle, wrap_int32_of_range _ (by omega) (by omega), ?_, ?_, hhist, hrr, ?_⟩
    · simp only [reward_average_window_size, hmod]; omega
    · simp only [reward_average_window_size, hmod, hhist]; omega
    · simp only [num_envs, hrr]; exact id
  · obtain ⟨s, h, _, hwf, hec⟩ := main_loop_spec source_config env (by decide) hs num_updates
      (by decide)
    obtain ⟨hrr, hhist, h0⟩ := hwf
    refine ⟨s, h, h0, ?_, hhist, hrr⟩
    simp only [source_config, batch_size, num_envs, num_updates] at hec
    exact hec

/-! ## The logged reward -/

theorem float_to_int_half : float_to_int (((0 : Int) : ℚ) + 1 / 2) = 0 := by
  have h : (0 : ℚ) ≤ ((0 : Int) : ℚ) + 1 / 2 := by norm_num
  rw [float_to_int, if_pos h, Int.floor_eq_iff]
  norm_num

theorem float_to_int_zero : float_to_int (((0 : Int) : ℚ) + 0) = 0 := by
  simp [float_to_int]

theorem half_env_shaped : ∀ k, (half_env k).shaped num_envs := by
  intro k
  unfold half_env
  by_cases hk : k = 0
  · rw [if_pos hk]; decide
  · rw [if_neg hk]; decide

theorem half_env_tracker :
    (run_events num_envs ((List.range batch_size).map half_env)).foldl
      (apply_event reward_average_window_size)
      (tracker_start reward_average_window_size num_envs)
    = Tracker.mk [0, 0, 0, 0, 0, 0, 0, 0] 2 [1 / 2, 1 / 2, 0, 0, 0, 0, 0, 0, 0, 0] := by
  norm_num [run_events, step_events, List.range_succ, event_of, real_reward_of, done_of,
    half_env, half_response, still_response, apply_event, tracker_start, num_envs, batch_size,
    reward_average_window_size]
  constructor <;> rfl

/-- C3 (logged reward), evaluation of the code at the failing input. Two environments finish
an episode of total reward `0.5` in the first step and nothing else happens during update
`0`: at the logging test of update `0` the history is `[0.5, 0.5, 0, ..., 0]` and two
episodes are complete. The integer accumulator of `std::accumulate` discards the fractional
part of every intermediate sum, so the logged value is `0`, whereas the sum of the history divided
by `min(episode_count, reward_average_window_size)` is `0.5`. -/
theorem average_reward_truncates :
    ∃ s : MainState ℚ, main_at_logging source_config half_env 0 = some s ∧
      s.tracker.episode_count = 2 ∧
      s.tracker.reward_history = [1 / 2, 1 / 2, 0, 0, 0, 0, 0, 0, 0, 0] ∧
      accumulate_reward_history s.tracker.reward_history = 0 ∧
      average_reward reward_average_window_size s.tracker.reward_history
        s.tracker.episode_count = 0 ∧
      s.tracker.reward_history.sum / ((min 2 reward_average_window_size : Nat) : ℚ) = 1 / 2 := by
  have hacc : accumulate_reward_history [1 / 2, 1 / 2, 0, 0, 0, 0, 0, 0, 0, 0] = 0 := by
    simp only [accumulate_reward_history, List.foldl_cons, List.foldl_nil, float_to_int_half,
      float_to_int_zero]
  obtain ⟨s, h, ht⟩ := main_at_logging_first source_config half_env (by decide)
    half_env_shaped (by decide)
  have ht2 : s.tracker
      = Tracker.mk [0, 0, 0, 0, 0, 0, 0, 0] 2 [1 / 2, 1 / 2, 0, 0, 0, 0, 0, 0, 0, 0] := by
    rw [ht]; exact half_env_tracker
  refine ⟨s, h, by rw [ht2], by rw [ht2], by rw [ht2]; exact hacc, ?_, ?_⟩
  · rw [ht2, average_reward, hacc]
    simp
  · rw [ht2]
    norm_num [reward_average_window_size]

/-- C9 (reward-average divisor), evaluation of the code at the failing input. Update `0` is
a logging point (`0 % 10 = 0`, and the iteration ends with the logging block); when no done
flag is true during its five steps, `episode_count` is `0` at the logging test and the
divisor of the average is `0`. -/
theorem average_reward_divisor_zero :
    0 % 10 = 0 ∧
    (main_update source_config quiet_env 0 (main_startup source_config)).map
      (fun s => s.calls.getLast?) = some (some (Call.log_info 0)) ∧
    (main_at_logging source_config quiet_env 0).map
      (fun s => (s.tracker.episode_count,
        average_reward_divisor reward_average_window_size s.tracker.episode_count))
      = some (0, 0) := by
  decide

/-! ## `flatten_2d_vector` -/

theorem sum_length_uniform {T : Type} (k : Nat) (input : List (List T))
    (h : ∀ row ∈ input, row.length = k) : (input.map List.length).sum = input.length * k := by
  induction input with
  | nil => simp
  | cons row rest ih =>
    have hrow : row.length = k := h row (by simp)
    have hrest := ih (fun r hr => h r (by simp [hr]))
    simp only [List.map_cons, List.sum_cons, List.length_cons, hrow, hrest]
    ring

/-- C6 (`flatten_2d_vector`). The output is the concatenation of the rows in order; its
length is the sum of the row lengths; when every row has length `k` the output has length
`n * k` for `n` rows and its element `i * k + j` is `input[i][j]` for all `i < n`, `j < k`;
the output is empty for an empty input and for an input of empty rows. -/
theorem flatten_2d_vector_spec {T : Type} (input : List (List T)) :
    flatten_2d_vector input = input.flatten ∧
    (flatten_2d_vector input).length = (input.map List.length).sum ∧
    (∀ k, (∀ row ∈ input, row.length = k) →
      (flatten_2d_vector input).length = input.length * k ∧
      ∀ i j, i < input.length → j < k →
        ∃ x, (flatten_2d_vector input)[i * k + j]? = some x ∧
          (input[i]?).bind (fun row => row[j]?) = some x) ∧
    flatten_2d_vector ([] : List (List T)) = [] ∧
    ((∀ row ∈ input, row = []) → flatten_2d_vector input = []) := by
  refine ⟨flatten_2d_vector_eq input, ?_, ?_, rfl, ?_⟩
  · rw [flatten_2d_vector_eq, List.length_flatten]
  · intro k hk
    have hlen : (flatten_2d_vector input).length = input.length * k := by
      rw [flatten_2d_vector_eq, List.length_flatten, sum_length_uniform k input hk]
    refine ⟨hlen, ?_⟩
    intro i j hi hj
    have hget := flatten_uniform_get k input hk i j hi hj
    have hrow : (input[i]).length = k := hk _ (List.getElem_mem hi)
    refine ⟨(input[i])[j], ?_, ?_⟩
    · rw [flatten_2d_vector_eq, hget, List.getElem?_eq_getElem hi]
      simp only [Option.some_bind]
      exact List.getElem?_eq_getElem (by omega)
    · rw [List.getElem?_eq_getElem hi]
      simp only [Option.some_bind]
      exact List.getElem?_eq_getElem (by omega)
  · intro hempty
    rw [flatten_2d_vector_eq]
    simp only [List.flatten_eq_nil_iff]
    exact hempty
/-! ## Instances on sample inputs -/

theorem sample_env_shaped : ∀ k, (sample_env k).shaped num_envs :=
  fun _ => (by decide : sample_response.shaped num_envs)

/-- The one-step theorem applied to `sample_tracker` and `sample_response` in the compiled
configuration: two episodes end, environment `0` keeps `5 + 1` and environment `1` is
cleared. -/
theorem tracker_update_one_step_witness :
    sample_response.shaped num_envs ∧
    sample_tracker.wf reward_average_window_size num_envs ∧
    ∃ t1 : Tracker Int,
      tracker_update reward_average_window_size num_envs sample_response sample_tracker
        = some t1 ∧
      t1.episode_count = 5 ∧ t1.running_rewards[0]? = some 6 ∧
      t1.running_rewards[1]? = some 0 := by
  obtain ⟨t1, h1, _, _, _, hrr, hcount, _⟩ :=
    tracker_update_one_step reward_average_window_size num_envs sample_response sample_tracker
      (by decide) (by decide) (by decide) (by decide)
  have hc : sample_tracker.episode_count
      + ((List.range num_envs).countP (done_of sample_response) : Nat) = 5 := by decide
  exact ⟨by decide, by decide, t1, h1, hcount.trans hc, hrr 0 (by decide), hrr 1 (by decide)⟩

/-- The whole-run theorem applied to the scripted scenario of section 8: the second
environment completes one episode of total reward `1`, which lands in history slot `0`, and the
first environment has accumulated `3`. -/
theorem tracker_run_history_witness :
    (∀ resp ∈ scenario_steps, resp.shaped 2) ∧
    done_count (run_events 2 scenario_steps) < 2 ^ 31 ∧
    completed_totals (run_events 2 scenario_steps) = [1] ∧
    ∃ t : Tracker Int,
      tracker_run reward_average_window_size 2 scenario_steps
        (tracker_start reward_average_window_size 2) = some t ∧
      t.episode_count = 1 ∧ t.reward_history[0]? = some 1 ∧ t.running_rewards[0]? = some 3 := by
  have htot : completed_totals (run_events 2 scenario_steps) = [1] := by decide
  obtain ⟨t, h1, hcount, _, _, _, hrun, hlatest, _⟩ :=
    tracker_run_history reward_average_window_size 2 scenario_steps
      (by decide) (by decide) (by decide)
  have h0 := hlatest 0 0 (by rw [htot]; decide) rfl (by
    intro k2 hk2 _
    rw [htot] at hk2
    simpa using hk2)
  rw [htot] at h0
  have hc : (done_count (run_events 2 scenario_steps) : Int) = 1 := by decide
  have hr : reward_total (open_segment (run_events 2 scenario_steps) 0) = 3 := by decide
  exact ⟨by decide, by decide, htot, t, h1, hcount.trans hc, h0,
    (hrun 0 (by decide)).trans (congrArg some hr)⟩

/-- The mask theorem applied to `sample_response`. -/
theorem insert_mask_values_witness :
    sample_response.shaped num_envs ∧
    ∃ mask : List (List Int), insert_mask num_envs sample_response.done = some mask ∧
      mask.length = num_envs := by
  obtain ⟨mask, h1, hlen, _⟩ := insert_mask_values num_envs sample_response (by decide)
  exact ⟨by decide, mask, h1, hlen⟩

/-- The alternation theorem applied to the compiled configuration and `sample_env`. -/
theorem main_request_response_alternation_witness :
    (∀ k, (sample_env k).shaped source_config.num_envs) ∧
    source_config.num_updates * (source_config.batch_size * source_config.num_envs) < 2 ^ 31 ∧
    ∃ s : MainState Int, main source_config sample_env = some s ∧
      comm_run s.calls = some CommState.awaiting_request := by
  obtain ⟨s, h1, _, _, hrun, _⟩ :=
    main_request_response_alternation source_config sample_env (by decide)
      sample_env_shaped (by decide)
  exact ⟨sample_env_shaped, by decide, s, h1, hrun⟩

/-- The specification of `flatten_2d_vector` applied to three rows of two elements. -/
theorem flatten_2d_vector_spec_witness :
    (∀ row ∈ [[1, 2], [3, 4], [5, 6]], row.length = 2) ∧
    (flatten_2d_vector [[1, 2], [3, 4], [5, 6]]).length = 3 * 2 ∧
    ∃ x, (flatten_2d_vector [[1, 2], [3, 4], [5, 6]])[2 * 2 + 1]? = some x ∧
      ([[1, 2], [3, 4], [5, 6]][2]?).bind (fun row => row[1]?) = some x := by
  have h := (flatten_2d_vector_spec [[1, 2], [3, 4], [5, 6]]).2.2.1 2 (by decide)
  exact ⟨by decide, h.1, h.2 2 1 (by decide) (by decide)⟩

/-- The cadence theorem applied to the compiled configuration and `sample_env`. -/
theorem main_storage_cadence_witness :
    (∀ k, (sample_env k).shaped source_config.num_envs) ∧
    source_config.num_updates * (source_config.batch_size * source_config.num_envs) < 2 ^ 31 ∧
    ∃ s : MainState Int, main source_config sample_env = some s ∧
      storage_run source_config.batch_size 0 s.calls = some 1 := by
  obtain ⟨s, h1, _, _, _, hrun⟩ :=
    main_storage_cadence source_config sample_env 0 (by decide) sample_env_shaped (by decide)
  exact ⟨sample_env_shaped, by decide, s, h1, hrun⟩

/-- The throughput theorem applied to update `0`, `sample_env`, exact arithmetic and the
constant `1e-9`. -/
theorem logging_throughput_guard_witness :
    (∀ k, (sample_env k).shaped num_envs) ∧ 0 < num_updates ∧ Monotone (id : ℚ → ℚ) ∧
    (0 : ℚ) < 1e-9 ∧ 0 < fps_divisor id 1e-9 0 ∧
    total_steps source_config 0 = ((0 + 1) * batch_size * num_envs : Nat) := by
  have hpos : (0 : ℚ) < 1e-9 := by norm_num
  obtain ⟨hdiv, htotal, _⟩ :=
    logging_throughput_guard sample_env sample_env_shaped 0 (by decide) id 1e-9
      monotone_id rfl rfl hpos
  exact ⟨sample_env_shaped, by decide, monotone_id, hpos, hdiv 0 (le_refl 0), htotal⟩

/-- The bounds theorem applied to the first iteration of the loops with `sample_env`. -/
theorem tracker_indices_in_bounds_witness :
    (∀ k, (sample_env k).shaped num_envs) ∧ 0 < num_updates ∧ 0 < batch_size ∧
    ∃ t : Tracker Int, tracker_at source_config sample_env 0 0 0 = some t ∧
      0 ≤ t.episode_count ∧ t.episode_count ≤ 4000000 := by
  obtain ⟨⟨t, h1, h0, hle, _⟩, _⟩ :=
    tracker_indices_in_bounds sample_env sample_env_shaped 0 0 0 (by decide) (by decide)
      (by decide)
  exact ⟨sample_env_shaped, by decide, by decide, t, h1, h0, hle⟩
end GymClient
